import Mathlib

/-!
# Key extraction and ceremony commands of semaphore-mtb-setup

A shallow embedding of `keys/keys.go` (infinity filtering, proving and
verifying key extraction) and of the Phase-1 commands `p1n` and `p1t` of
`actions.go`, with the properties the specification states about them.

Conventions of the embedding:

* a Go slice is a `List`; `make([]T, n)` is `List.replicate n zero`, an
  indexed store `s[i] = v` is `List.set`;
* a Go `error` is an `Option String` (`none` is `nil`); a function that
  returns a value or an error returns an `Except String`;
* Go `int` values are `Int`, and the conversions `byte(x)`, `uint64(x)`,
  `int64(x)` are the explicit reductions `toByte`, `toUint64`, `toInt64`.
-/

namespace SemaphoreMtbSetup

/-! ## Machine integer conversions -/

/-- Go conversion `byte(x)` of an `int`: the low eight bits. -/
def toByte (x : Int) : Nat := (x % 256).toNat

/-- Go conversion `uint64(x)` of an `int`: reduction modulo `2^64`. -/
def toUint64 (x : Int) : Nat := (x % 2 ^ 64).toNat

/-- Go conversion `int64(x)` of a value computed in 64-bit `int` arithmetic: the
two's complement representative in `[-2^63, 2^63)`. -/
def toInt64 (x : Int) : Int := (x + 2 ^ 63) % 2 ^ 64 - 2 ^ 63

/-! ## Curve points

`bn254.G1Affine` is a pair of base-field elements and `bn254.G2Affine` a pair of
elements of the quadratic extension.  A field element is modelled by the
natural number its limbs hold; `IsZero` tests that all limbs are zero and
`SetZero` clears them. -/

/-- The limbs of an `fp.Element`, read as one natural number. -/
abbrev Element := Nat

/-- Method `fp.Element.IsZero`. -/
def Element.IsZero (e : Element) : Bool := e == 0

/-- Type `bn254.E2`: an element `A0 + A1 u` of the quadratic extension. -/
structure E2 where
  A0 : Element
  A1 : Element
  deriving DecidableEq, Repr

/-- Method `E2.IsZero`. -/
def E2.IsZero (z : E2) : Bool := Element.IsZero z.A0 && Element.IsZero z.A1

/-- Type `bn254.G1Affine`. -/
structure G1Affine where
  X : Element
  Y : Element
  deriving DecidableEq, Repr

/-- Type `bn254.G2Affine`. -/
structure G2Affine where
  X : E2
  Y : E2
  deriving DecidableEq, Repr

/-- The Go zero value of `bn254.G1Affine`, which is the point at infinity. -/
def G1Affine.zero : G1Affine := ⟨0, 0⟩

/-- The Go zero value of `bn254.G2Affine`, which is the point at infinity. -/
def G2Affine.zero : G2Affine := ⟨⟨0, 0⟩, ⟨0, 0⟩⟩

/-- Method `G1Affine.IsInfinity`: both coordinates are zero. -/
def G1Affine.IsInfinity (p : G1Affine) : Bool := Element.IsZero p.X && Element.IsZero p.Y

/-- Method `G2Affine.IsInfinity`: both coordinates are zero. -/
def G2Affine.IsInfinity (p : G2Affine) : Bool := E2.IsZero p.X && E2.IsZero p.Y

/-! ## Infinity filtering (`keys/keys.go`) -/

/-- The variables a filtering loop updates: the mask, the output buffer and the
write index `j`. -/
structure FilterState (α : Type) where
  infinityAt : List Bool
  filtered : List α
  j : Nat
  deriving Repr

/-- The variables a reconstruction loop updates: the output array and the read
index `j`. -/
structure ReconstructState (α : Type) where
  full : List α
  j : Nat
  deriving Repr

/-- The loop `for i, e := range buff` of `filterInfinityG1`, started at index `i`
on the elements not yet visited; `e` is `buff[i]`. -/
def filterInfinityG1.loop : List G1Affine → Nat → FilterState G1Affine → FilterState G1Affine
  | [], _, st => st
  | e :: rest, i, st =>
    if e.IsInfinity then
      filterInfinityG1.loop rest (i + 1) { st with infinityAt := st.infinityAt.set i true }
    else
      filterInfinityG1.loop rest (i + 1)
        { st with filtered := st.filtered.set st.j e, j := st.j + 1 }

/-- Function `filterInfinityG1`: returns `filtered[:j]`, `infinityAt` and
`uint64(len(buff) - j)`. -/
def filterInfinityG1 (buff : List G1Affine) : List G1Affine × List Bool × Nat :=
  let infinityAt := List.replicate buff.length false
  let filtered := List.replicate buff.length G1Affine.zero
  let st := filterInfinityG1.loop buff 0 ⟨infinityAt, filtered, 0⟩
  (st.filtered.take st.j, st.infinityAt, toUint64 ((buff.length : Int) - (st.j : Int)))

/-- The loop `for i := range infinityMask` of `reconstructG1WithInfinity`, started
at index `i` on the mask entries not yet visited. -/
def reconstructG1WithInfinity.loop (filtered : List G1Affine) :
    List Bool → Nat → ReconstructState G1Affine → ReconstructState G1Affine
  | [], _, st => st
  | m :: rest, i, st =>
    if m then
      let p := st.full.getD i G1Affine.zero
      let p := { p with X := 0 }
      let p := { p with Y := 0 }
      reconstructG1WithInfinity.loop filtered rest (i + 1) { st with full := st.full.set i p }
    else if st.j < filtered.length then
      reconstructG1WithInfinity.loop filtered rest (i + 1)
        { full := st.full.set i (filtered.getD st.j G1Affine.zero), j := st.j + 1 }
    else
      reconstructG1WithInfinity.loop filtered rest (i + 1) st

/-- Function `reconstructG1WithInfinity`. -/
def reconstructG1WithInfinity (filtered : List G1Affine) (infinityMask : List Bool) :
    List G1Affine :=
  let full := List.replicate infinityMask.length G1Affine.zero
  (reconstructG1WithInfinity.loop filtered infinityMask 0 ⟨full, 0⟩).full

/-- The loop `for i, e := range buff` of `filterInfinityG2`; `e` is `buff[i]`. -/
def filterInfinityG2.loop : List G2Affine → Nat → FilterState G2Affine → FilterState G2Affine
  | [], _, st => st
  | e :: rest, i, st =>
    if e.IsInfinity then
      filterInfinityG2.loop rest (i + 1) { st with infinityAt := st.infinityAt.set i true }
    else
      filterInfinityG2.loop rest (i + 1)
        { st with filtered := st.filtered.set st.j e, j := st.j + 1 }

/-- Function `filterInfinityG2`. -/
def filterInfinityG2 (buff : List G2Affine) : List G2Affine × List Bool × Nat :=
  let infinityAt := List.replicate buff.length false
  let filtered := List.replicate buff.length G2Affine.zero
  let st := filterInfinityG2.loop buff 0 ⟨infinityAt, filtered, 0⟩
  (st.filtered.take st.j, st.infinityAt, toUint64 ((buff.length : Int) - (st.j : Int)))

/-- The loop `for i := range infinityMask` of `reconstructG2WithInfinity`. -/
def reconstructG2WithInfinity.loop (filtered : List G2Affine) :
    List Bool → Nat → ReconstructState G2Affine → ReconstructState G2Affine
  | [], _, st => st
  | m :: rest, i, st =>
    if m then
      let p := st.full.getD i G2Affine.zero
      let p := { p with X := { p.X with A0 := 0 } }
      let p := { p with X := { p.X with A1 := 0 } }
      let p := { p with Y := { p.Y with A0 := 0 } }
      let p := { p with Y := { p.Y with A1 := 0 } }
      reconstructG2WithInfinity.loop filtered rest (i + 1) { st with full := st.full.set i p }
    else if st.j < filtered.length then
      reconstructG2WithInfinity.loop filtered rest (i + 1)
        { full := st.full.set i (filtered.getD st.j G2Affine.zero), j := st.j + 1 }
    else
      reconstructG2WithInfinity.loop filtered rest (i + 1) st

/-- Function `reconstructG2WithInfinity`. -/
def reconstructG2WithInfinity (filtered : List G2Affine) (infinityMask : List Bool) :
    List G2Affine :=
  let full := List.replicate infinityMask.length G2Affine.zero
  (reconstructG2WithInfinity.loop filtered infinityMask 0 ⟨full, 0⟩).full


/-! ### The loops, once for both groups

`filterInfinityG1` and `filterInfinityG2`, and the two reconstruction functions,
differ in the point type only.  The loops below are the common shape; the
theorems are proved on them and carried over to the four functions. -/

/-- The filtering loop over any point type, with `isInf` for `IsInfinity`. -/
def filterLoop {α : Type} (isInf : α → Bool) : List α → Nat → FilterState α → FilterState α
  | [], _, st => st
  | e :: rest, i, st =>
    if isInf e then
      filterLoop isInf rest (i + 1) { st with infinityAt := st.infinityAt.set i true }
    else
      filterLoop isInf rest (i + 1)
        { st with filtered := st.filtered.set st.j e, j := st.j + 1 }

/-- The reconstruction loop over any point type, with `zero` for the point whose
coordinates are all zero. -/
def reconstructLoop {α : Type} (zero : α) (filtered : List α) :
    List Bool → Nat → ReconstructState α → ReconstructState α
  | [], _, st => st
  | m :: rest, i, st =>
    if m then
      reconstructLoop zero filtered rest (i + 1) { st with full := st.full.set i zero }
    else if st.j < filtered.length then
      reconstructLoop zero filtered rest (i + 1)
        { full := st.full.set i (filtered.getD st.j zero), j := st.j + 1 }
    else
      reconstructLoop zero filtered rest (i + 1) st

/-- The array a reconstruction loop builds, written as a recursion on the mask:
`zero` where the mask is set or the filtered points have run out, the next
filtered point elsewhere. -/
def interleave {α : Type} (zero : α) : List Bool → List α → List α
  | [], _ => []
  | true :: ms, fs => zero :: interleave zero ms fs
  | false :: ms, f :: fs => f :: interleave zero ms fs
  | false :: ms, [] => zero :: interleave zero ms []

/-! ## Ceremony files

A file is modelled by the sequence of encoded values it holds.  Each value
knows how many bytes its encoding takes, so that a byte offset can be located
in the sequence.  The curve decoder accepts a point in either encoding and
fails on anything else.  A reader moved to an offset inside a value reads
bytes that are not the encoding of a value of the file; what they decode to
is a parameter of the functions that seek. -/

/-- One encoded value of a ceremony file: a G1 or G2 point (in raw or in
compressed form), a 32-bit length prefix, or a block of other bytes such as a
transcript hash. -/
inductive Item where
  | g1 (raw : Bool) (p : G1Affine)
  | g2 (raw : Bool) (p : G2Affine)
  | u32 (n : Nat)
  | blob (len : Nat)
  deriving DecidableEq, Repr

/-- Number of bytes of an encoded value: a G1 point takes 64 bytes raw and 32
compressed, a G2 point 128 bytes raw and 64 compressed, a length prefix 4. -/
def Item.size : Item → Nat
  | .g1 raw _ => if raw then 64 else 32
  | .g2 raw _ => if raw then 128 else 64
  | .u32 _ => 4
  | .blob len => len

/-- Number of bytes of a sequence of encoded values. -/
def byteSize : List Item → Nat
  | [] => 0
  | it :: rest => it.size + byteSize rest

/-- Call `dec.Decode(&p)` for a `bn254.G1Affine`: the point and the rest of the
stream. -/
def decodeG1 : List Item → Except String (G1Affine × List Item)
  | Item.g1 _ p :: rest => .ok (p, rest)
  | _ => .error "bn254: cannot decode G1Affine"

/-- Call `dec.Decode(&p)` for a `bn254.G2Affine`. -/
def decodeG2 : List Item → Except String (G2Affine × List Item)
  | Item.g2 _ p :: rest => .ok (p, rest)
  | _ => .error "bn254: cannot decode G2Affine"

/-- The length prefix read by `dec.Decode(&slice)`. -/
def decodeUint32 : List Item → Except String (Nat × List Item)
  | Item.u32 n :: rest => .ok (n, rest)
  | _ => .error "bn254: cannot decode slice length"

/-- The `n` points read by `dec.Decode(&slice)` after the length prefix. -/
def decodeG1Points : Nat → List Item → Except String (List G1Affine × List Item)
  | 0, r => .ok ([], r)
  | n + 1, r => do
    let (p, r) ← decodeG1 r
    let (ps, r) ← decodeG1Points n r
    pure (p :: ps, r)

/-- The `n` points read by `dec.Decode(&slice)` after the length prefix. -/
def decodeG2Points : Nat → List Item → Except String (List G2Affine × List Item)
  | 0, r => .ok ([], r)
  | n + 1, r => do
    let (p, r) ← decodeG2 r
    let (ps, r) ← decodeG2Points n r
    pure (p :: ps, r)

/-- Call `dec.Decode(&slice)` for a `[]bn254.G1Affine`: a length prefix, then that
many points. -/
def decodeG1Slice (r : List Item) : Except String (List G1Affine × List Item) := do
  let (n, r) ← decodeUint32 r
  decodeG1Points n r

/-- Call `dec.Decode(&slice)` for a `[]bn254.G2Affine`. -/
def decodeG2Slice (r : List Item) : Except String (List G2Affine × List Item) := do
  let (n, r) ← decodeUint32 r
  decodeG2Points n r

/-- The values of a file that start at byte offset `pos` or later: where a reader
stands after a seek to the start of a value.  The result is `none` when the
offset falls inside a value; an offset past the end leaves nothing to read. -/
def valuesFrom : List Item → Nat → Option (List Item)
  | [], _ => some []
  | it :: rest, pos =>
    if pos = 0 then some (it :: rest)
    else if it.size ≤ pos then valuesFrom rest (pos - it.size)
    else none

/-- Call `evalsFile.Seek(pos, io.SeekStart)` followed by the reset of the buffered
reader.  A negative offset is an error of `Seek`.  Any other seek succeeds, also
one to an offset inside an encoded value: the decoder then reads the bytes it
finds there, and `inside file pos` stands for the sequence of values those
bytes decode to, whatever it is. -/
def seekStart (inside : List Item → Nat → List Item) (file : List Item) (pos : Int) :
    Except String (List Item) :=
  if pos < 0 then .error "seek: invalid argument"
  else match valuesFrom file pos.toNat with
    | some r => .ok r
    | none => .ok (inside file pos.toNat)

/-- Modelled from the spec: the Phase-2 header `phase2.Header`, whose fields are
stored as unsigned 32-bit integers. -/
structure Header where
  Power : Nat
  Domain : Nat
  Wires : Nat
  Witness : Nat
  Public : Nat
  Contributions : Nat
  deriving DecidableEq, Repr

/-- An opened Phase-2 file: the result of `header.Read` and the values that
follow the header. -/
structure Phase2File where
  header : Except String Header
  body : List Item

/-- Type `pedersen.ProvingKey`. -/
structure pedersen.ProvingKey where
  Basis : List G1Affine
  BasisExpSigma : List G1Affine
  deriving DecidableEq, Repr

/-- Type `pedersen.VerifyingKey`. -/
structure pedersen.VerifyingKey where
  G : G2Affine
  GSigmaNeg : G2Affine
  deriving DecidableEq, Repr

/-- The Go zero value of `pedersen.VerifyingKey`. -/
def pedersen.VerifyingKey.zero : pedersen.VerifyingKey := ⟨G2Affine.zero, G2Affine.zero⟩

/-- Field `G1` of `groth16bn254.ProvingKey`. -/
structure groth16bn254.ProvingKeyG1 where
  Alpha : G1Affine
  Beta : G1Affine
  Delta : G1Affine
  A : List G1Affine
  B : List G1Affine
  Z : List G1Affine
  K : List G1Affine
  deriving DecidableEq, Repr

/-- Field `G2` of `groth16bn254.ProvingKey`. -/
structure groth16bn254.ProvingKeyG2 where
  Beta : G2Affine
  Delta : G2Affine
  B : List G2Affine
  deriving DecidableEq, Repr

/-- Type `fft.Domain`, of which the cardinality is recorded. -/
structure fft.Domain where
  Cardinality : Nat
  deriving DecidableEq, Repr

/-- The search of `ecc.NextPowerOfTwo`: the first of `c, 2c, 4c, ...` that is at
least `n`, among the first `fuel + 1` of them. -/
def NextPowerOfTwo.loop : Nat → Nat → Nat → Nat
  | 0, c, _ => c
  | fuel + 1, c, n => if n ≤ c then c else NextPowerOfTwo.loop fuel (2 * c) n

/-- Function `ecc.NextPowerOfTwo` on a `uint64`: the least power of two that is at
least `n`, which is 1 for `n = 0`.  For `n` above `2^63`, where the library
panics, the value is `2^64`. -/
def NextPowerOfTwo (n : Nat) : Nat := NextPowerOfTwo.loop 64 1 n

/-- Function `fft.NewDomain`: a domain whose cardinality is the next power of two
of `m`.  It panics when that power is above `2^28`, the largest order of a
root of unity in the scalar field. -/
def fft.NewDomain (m : Nat) : Except String fft.Domain :=
  let x := NextPowerOfTwo m
  if 2 ^ 28 < x then .error "panic: m is too big: the required root of unity does not exist"
  else .ok { Cardinality := x }

/-- Type `groth16bn254.ProvingKey`. -/
structure groth16bn254.ProvingKey where
  Domain : fft.Domain
  G1 : groth16bn254.ProvingKeyG1
  G2 : groth16bn254.ProvingKeyG2
  InfinityA : List Bool
  InfinityB : List Bool
  NbInfinityA : Nat
  NbInfinityB : Nat
  CommitmentKeys : List pedersen.ProvingKey
  deriving DecidableEq, Repr

/-- Field `G1` of `groth16bn254.VerifyingKey`. -/
structure groth16bn254.VerifyingKeyG1 where
  Alpha : G1Affine
  Beta : G1Affine
  Delta : G1Affine
  K : List G1Affine
  deriving DecidableEq, Repr

/-- Field `G2` of `groth16bn254.VerifyingKey`. -/
structure groth16bn254.VerifyingKeyG2 where
  Beta : G2Affine
  Delta : G2Affine
  Gamma : G2Affine
  deriving DecidableEq, Repr

/-- Type `groth16bn254.VerifyingKey`. -/
structure groth16bn254.VerifyingKey where
  G1 : groth16bn254.VerifyingKeyG1
  G2 : groth16bn254.VerifyingKeyG2
  CommitmentKeys : List pedersen.VerifyingKey
  deriving DecidableEq, Repr

/-- Expression `make([]bn254.G1Affine, n)`: `n` zero points, and a run-time panic
when `n` is negative. -/
def makeG1 (n : Int) : Except String (List G1Affine) :=
  if n < 0 then .error "panic: makeslice: len out of range"
  else .ok (List.replicate n.toNat G1Affine.zero)

/-- The loops `for i := 0; i < n; i++ { decPh2.Decode(&buff[i]) }` of `extractPK`,
with `n` iterations left, at index `i`. -/
def extractPK.decodeInto :
    Nat → Nat → List G1Affine → List Item → Except String (List G1Affine × List Item)
  | 0, _, buff, r => .ok (buff, r)
  | n + 1, i, buff, r => do
    let (p, r) ← decodeG1 r
    extractPK.decodeInto n (i + 1) (buff.set i p) r

/-- Function `extractPK`.  The result is the proving key handed to `pk.WriteTo`;
opening, creating and writing the files of the operating system are left out.
`inside` says what the decoder reads after a seek into the middle of a value
of the evals file. -/
def extractPK (inside : List Item → Nat → List Item) (phase2File : Phase2File)
    (evalsFile : List Item) : Except String groth16bn254.ProvingKey := do
  let ph2Reader := phase2File.body
  let evalsReader := evalsFile
  let header ← phase2File.header
  -- Set domain
  let domain ← fft.NewDomain (toUint64 header.Domain)
  -- 1. Read [α]₁
  let (alphaG1, evalsReader) ← decodeG1 evalsReader
  -- 2. Read [β]₁
  let (betaG1, evalsReader) ← decodeG1 evalsReader
  -- 3. Read [δ]₁
  let (deltaG1, ph2Reader) ← decodeG1 ph2Reader
  -- Read [β]₂
  let (betaG2, evalsReader) ← decodeG2 evalsReader
  -- Read [δ]₂
  let (deltaG2, ph2Reader) ← decodeG2 ph2Reader
  -- 4. Read, Filter A
  let (buffG1, evalsReader) ← decodeG1Slice evalsReader
  let (buffG1, infinityA, nbInfinityA) := filterInfinityG1 buffG1
  -- 5. Read, Filter B
  let (buffG1B, evalsReader) ← decodeG1Slice evalsReader
  let (buffG1B, infinityB, nbInfinityB) := filterInfinityG1 buffG1B
  -- 6. Read Z
  let buffG1Z ← makeG1 ((header.Domain : Int) - 1)
  let (buffG1Z, ph2Reader) ←
    extractPK.decodeInto ((header.Domain : Int) - 1).toNat 0 buffG1Z ph2Reader
  -- Skip the last Z element
  let (_, ph2Reader) ← decodeG1 ph2Reader
  -- 7. Read PKK
  let buffG1K ← makeG1 (header.Witness : Int)
  let (buffG1K, _) ← extractPK.decodeInto header.Witness 0 buffG1K ph2Reader
  -- 10. Read B₂
  let (buffG2, _) ← decodeG2Slice evalsReader
  let (buffG2, _, _) := filterInfinityG2 buffG2
  -- 11. Read commitment key data: skip to commitment key position
  let pos := toInt64 (128 * ((header.Wires : Int) + 1) + 12)
  let evalsReader ← seekStart inside evalsFile pos
  -- Skip VKK
  let (_, evalsReader) ← decodeG1Slice evalsReader
  -- Read CKK (Commitment Key)
  let (_, _) ← decodeG1Slice evalsReader
  pure {
    Domain := domain
    G1 := { Alpha := alphaG1, Beta := betaG1, Delta := deltaG1,
            A := buffG1, B := buffG1B, Z := buffG1Z, K := buffG1K }
    G2 := { Beta := betaG2, Delta := deltaG2, B := buffG2 }
    InfinityA := infinityA
    InfinityB := infinityB
    NbInfinityA := nbInfinityA
    NbInfinityB := nbInfinityB
    CommitmentKeys := [] }

/-- Function `extractVK`.  `gammaG2` is the G2 generator returned by
`bn254.Generators` and `Setup` is `pedersen.Setup`.  The result is the
verifying key handed to `vk.WriteTo`.  `inside` says what the decoder reads
after a seek into the middle of a value of the evals file. -/
def extractVK (inside : List Item → Nat → List Item) (gammaG2 : G2Affine)
    (Setup : List (List G1Affine) →
      Except String (List pedersen.ProvingKey × pedersen.VerifyingKey))
    (phase2File : Phase2File) (evalsFile : List Item) :
    Except String groth16bn254.VerifyingKey := do
  let ph2Reader := phase2File.body
  let evalsReader := evalsFile
  let header ← phase2File.header
  -- 1. Read [α]₁
  let (alphaG1, evalsReader) ← decodeG1 evalsReader
  -- 2. Read [β]₁
  let (betaG1, evalsReader) ← decodeG1 evalsReader
  -- 3. Read [β]₂
  let (betaG2, _) ← decodeG2 evalsReader
  -- 5. Read [δ]₁
  let (deltaG1, ph2Reader) ← decodeG1 ph2Reader
  -- 6. Read [δ]₂
  let (deltaG2, _) ← decodeG2 ph2Reader
  -- 7. Read VKK
  let pos := toInt64 (128 * ((header.Wires : Int) + 1) + 12)
  let evalsReader ← seekStart inside evalsFile pos
  let (vkK, evalsReader) ← decodeG1Slice evalsReader
  -- 8. Read and setup commitment keys
  let (ckk, _) ← decodeG1Slice evalsReader
  let commitmentKey ←
    if ckk.length > 0 then do
      let (_, commitmentKey) ← Setup [ckk]
      pure commitmentKey
    else pure pedersen.VerifyingKey.zero
  pure {
    G1 := { Alpha := alphaG1, Beta := betaG1, Delta := deltaG1, K := vkK }
    G2 := { Beta := betaG2, Delta := deltaG2, Gamma := gammaG2 }
    CommitmentKeys := if ckk.length > 0 then [commitmentKey] else [] }

/-- Function `ExtractKeys`: the proving key, then the verifying key. -/
def ExtractKeys (inside : List Item → Nat → List Item) (gammaG2 : G2Affine)
    (Setup : List (List G1Affine) →
      Except String (List pedersen.ProvingKey × pedersen.VerifyingKey))
    (phase2File : Phase2File) (evalsFile : List Item) :
    Except String (groth16bn254.ProvingKey × groth16bn254.VerifyingKey) := do
  let pk ← extractPK inside phase2File evalsFile
  let vk ← extractVK inside gammaG2 Setup phase2File evalsFile
  pure (pk, vk)

/-! ### File layouts -/

/-- Modelled from the spec: a vector of G1 points is stored as `u32 len, then
len × G1`. -/
def encodeG1Slice (raw : Bool) (ps : List G1Affine) : List Item :=
  Item.u32 ps.length :: ps.map (Item.g1 raw)

/-- Modelled from the spec: a vector of G2 points is stored as `u32 len, then
len × G2`. -/
def encodeG2Slice (raw : Bool) (ps : List G2Affine) : List Item :=
  Item.u32 ps.length :: ps.map (Item.g2 raw)

/-- The content of an evals file. -/
structure Evals where
  AlphaG1 : G1Affine
  BetaG1 : G1Affine
  BetaG2 : G2Affine
  A : List G1Affine
  B : List G1Affine
  B2 : List G2Affine
  VKK : List G1Affine
  CKK : List G1Affine
  deriving DecidableEq, Repr

/-- Modelled from the spec: the part of the evals file that precedes the VKK
section, `αG1, βG1, βG2`, then `A`, `B` and `B2`. -/
def evalsBeforeVKK (raw : Bool) (e : Evals) : List Item :=
  [Item.g1 raw e.AlphaG1, Item.g1 raw e.BetaG1, Item.g2 raw e.BetaG2] ++
    encodeG1Slice raw e.A ++ encodeG1Slice raw e.B ++ encodeG2Slice raw e.B2

/-- Modelled from the spec: the evals file layout, the part before VKK followed
by the sections `VKK` and `CKK`. -/
def evalsLayout (raw : Bool) (e : Evals) : List Item :=
  evalsBeforeVKK raw e ++ (encodeG1Slice raw e.VKK ++ encodeG1Slice raw e.CKK)

/-- Modelled from the spec: the body of a Phase-2 file, `δG1, δG2`, then `Z`, then
`PKK`, then the contribution records. -/
def phase2Layout (raw : Bool) (deltaG1 : G1Affine) (deltaG2 : G2Affine)
    (Z PKK : List G1Affine) (contributions : List Item) : List Item :=
  [Item.g1 raw deltaG1, Item.g2 raw deltaG2] ++ Z.map (Item.g1 raw) ++
    PKK.map (Item.g1 raw) ++ contributions

/-- The byte offset `128*(header.Wires+1) + 12` that `extractPK` and `extractVK`
seek to, as the `int64` handed to `Seek`. -/
def vkkSeekOffset (wires : Nat) : Int := toInt64 (128 * ((wires : Int) + 1) + 12)

/-! ## Phase-1 commands (`actions.go`) -/

/-- The functions the commands call: `strconv.Atoi`, `phase1.Initialize` and
`phase1.Transform`.  A power is passed as a `byte`. -/
structure Packages where
  Atoi : String → Except String Int
  Initialize : Nat → String → Option String
  Transform : String → String → Nat → Nat → Option String

/-- A call into package `phase1`, with its arguments. -/
inductive Call where
  | Initialize (power : Nat) (outputPath : String)
  | Transform (inputPath outputPath : String) (inPower outPower : Nat)
  deriving DecidableEq, Repr

/-- What a command does: the error it returns and the calls into `phase1` it
made. -/
structure Outcome where
  err : Option String
  calls : List Call
  deriving DecidableEq, Repr

/-- Method `cCtx.Args().Get(n)`: the empty string when there is no such
argument. -/
def Args.Get (args : List String) (n : Nat) : String := args.getD n ""

/-- Command `p1t`. -/
def p1t (pkg : Packages) (args : List String) : Outcome :=
  -- sanity check
  if args.length ≠ 4 then ⟨some "please provide the correct arguments", []⟩
  else
    let inputPath := Args.Get args 0
    let outputPath := Args.Get args 1
    let inPowStr := Args.Get args 2
    match pkg.Atoi inPowStr with
    | .error err => ⟨some err, []⟩
    | .ok inPower =>
      let outPowStr := Args.Get args 3
      match pkg.Atoi outPowStr with
      | .error err => ⟨some err, []⟩
      | .ok outPower =>
        if inPower < outPower then ⟨some "cannot transform to a higher power", []⟩
        else
          ⟨pkg.Transform inputPath outputPath (toByte inPower) (toByte outPower),
            [Call.Transform inputPath outputPath (toByte inPower) (toByte outPower)]⟩

/-- Command `p1n`. -/
def p1n (pkg : Packages) (args : List String) : Outcome :=
  -- sanity check
  if args.length ≠ 2 then ⟨some "please provide the correct arguments", []⟩
  else
    let powerStr := Args.Get args 0
    match pkg.Atoi powerStr with
    | .error err => ⟨some err, []⟩
    | .ok power =>
      if power > 26 then ⟨some "can't support powers larger than 26", []⟩
      else
        let outputPath := Args.Get args 1
        ⟨pkg.Initialize (toByte power) outputPath,
          [Call.Initialize (toByte power) outputPath]⟩


/-! ## Sample inputs

Concrete files and packages on which the definitions are evaluated. -/

/-- The decimal value of a string of digits, `none` when a character is not a
digit or the string is empty. -/
def digitsValue : List Char → Nat → Bool → Option Nat
  | [], acc, seen => if seen then some acc else none
  | c :: cs, acc, _ =>
    if 48 ≤ c.toNat ∧ c.toNat ≤ 57 then digitsValue cs (10 * acc + (c.toNat - 48)) true
    else none

/-- A model of `strconv.Atoi`: an optional sign followed by decimal digits, with
the range of a 64-bit `int`. -/
def decimalAtoi (s : String) : Except String Int :=
  let value : Option Int :=
    match s.toList with
    | '-' :: cs => (digitsValue cs 0 false).map (fun n => -(n : Int))
    | '+' :: cs => (digitsValue cs 0 false).map (fun n => (n : Int))
    | cs => (digitsValue cs 0 false).map (fun n => (n : Int))
  match value with
  | none => .error "strconv.Atoi: invalid syntax"
  | some v =>
    if -(2 ^ 63) ≤ v ∧ v < 2 ^ 63 then .ok v else .error "strconv.Atoi: value out of range"

/-- Packages in which `phase1.Initialize` and `phase1.Transform` succeed. -/
def samplePackages : Packages :=
  { Atoi := decimalAtoi
    Initialize := fun _ _ => none
    Transform := fun _ _ _ _ => none }

/-- A reading of the bytes inside a value in which nothing can be decoded. -/
def sampleInside : List Item → Nat → List Item := fun _ _ => []

/-- A reading of the bytes inside a value as two empty vectors: two length
prefixes that are zero. -/
def sampleInsideEmpty : List Item → Nat → List Item := fun _ _ => [Item.u32 0, Item.u32 0]

/-- A `pedersen.Setup` that succeeds. -/
def sampleSetup (bases : List (List G1Affine)) :
    Except String (List pedersen.ProvingKey × pedersen.VerifyingKey) :=
  .ok (bases.map (fun b => ⟨b, b⟩), ⟨⟨⟨1, 0⟩, ⟨2, 0⟩⟩, ⟨⟨3, 0⟩, ⟨4, 0⟩⟩⟩)

/-- An evals content for two wires, with one commitment basis point. -/
def sampleEvals : Evals :=
  { AlphaG1 := ⟨1, 2⟩
    BetaG1 := ⟨3, 4⟩
    BetaG2 := ⟨⟨1, 2⟩, ⟨3, 4⟩⟩
    A := [⟨0, 0⟩, ⟨5, 6⟩]
    B := [⟨7, 8⟩, ⟨0, 0⟩]
    B2 := [⟨⟨7, 8⟩, ⟨9, 10⟩⟩, ⟨⟨0, 0⟩, ⟨0, 0⟩⟩]
    VKK := [⟨9, 9⟩]
    CKK := [⟨8, 8⟩] }

/-- A Phase-2 header with domain 4, two wires and one witness wire. -/
def sampleHeader : Header :=
  { Power := 2, Domain := 4, Wires := 2, Witness := 1, Public := 1, Contributions := 0 }

/-- A Phase-2 file for `sampleHeader`: four `Z` entries and one `PKK` entry. -/
def samplePhase2 : Phase2File :=
  { header := .ok sampleHeader
    body := phase2Layout true ⟨1, 1⟩ ⟨⟨1, 1⟩, ⟨1, 1⟩⟩
      [⟨11, 1⟩, ⟨12, 2⟩, ⟨13, 3⟩, ⟨14, 4⟩] [⟨21, 1⟩] [] }

/-- The proving key extracted from the sample files. -/
def samplePK : groth16bn254.ProvingKey :=
  { Domain := ⟨4⟩
    G1 := { Alpha := ⟨1, 2⟩, Beta := ⟨3, 4⟩, Delta := ⟨1, 1⟩,
            A := [⟨5, 6⟩], B := [⟨7, 8⟩],
            Z := [⟨11, 1⟩, ⟨12, 2⟩, ⟨13, 3⟩], K := [⟨21, 1⟩] }
    G2 := { Beta := ⟨⟨1, 2⟩, ⟨3, 4⟩⟩, Delta := ⟨⟨1, 1⟩, ⟨1, 1⟩⟩,
            B := [⟨⟨7, 8⟩, ⟨9, 10⟩⟩] }
    InfinityA := [true, false]
    InfinityB := [false, true]
    NbInfinityA := 1
    NbInfinityB := 1
    CommitmentKeys := [] }

/-- The verifying key extracted from the sample files, with `G2Affine.zero` in
the place of the generator. -/
def sampleVK : groth16bn254.VerifyingKey :=
  { G1 := { Alpha := ⟨1, 2⟩, Beta := ⟨3, 4⟩, Delta := ⟨1, 1⟩, K := [⟨9, 9⟩] }
    G2 := { Beta := ⟨⟨1, 2⟩, ⟨3, 4⟩⟩, Delta := ⟨⟨1, 1⟩, ⟨1, 1⟩⟩, Gamma := G2Affine.zero }
    CommitmentKeys := [⟨⟨⟨1, 0⟩, ⟨2, 0⟩⟩, ⟨⟨3, 0⟩, ⟨4, 0⟩⟩⟩] }

/-! # Theorems -/

/-! ## Machine integers -/

theorem toUint64_of_lt (n : Nat) (h : n < 2 ^ 64) : toUint64 (n : Int) = n := by
  unfold toUint64
  have h1 : ((n : Int)) % 2 ^ 64 = n := by
    apply Int.emod_eq_of_lt <;> omega
  rw [h1]; simp

theorem toInt64_of_lt (x : Int) (h0 : 0 ≤ x) (h : x < 2 ^ 63) : toInt64 x = x := by
  unfold toInt64
  have h1 : (x + 2 ^ 63) % 2 ^ 64 = x + 2 ^ 63 := by
    apply Int.emod_eq_of_lt <;> omega
  rw [h1]; omega

/-! ## Points at infinity -/

theorem g1_isInfinity_iff_zero (p : G1Affine) : p.IsInfinity = true ↔ p = G1Affine.zero := by
  cases p with
  | mk X Y => simp [G1Affine.IsInfinity, Element.IsZero, G1Affine.zero]

theorem g2_isInfinity_iff_zero (p : G2Affine) : p.IsInfinity = true ↔ p = G2Affine.zero := by
  cases p with
  | mk X Y =>
    cases X; cases Y
    simp [G2Affine.IsInfinity, E2.IsZero, Element.IsZero, G2Affine.zero, and_assoc]

/-! ## The loops -/

theorem filterLoop_spec {α : Type} (isInf : α → Bool) :
    ∀ (rest : List α) (pm : List Bool) (pf pad : List α), rest.length ≤ pad.length →
      filterLoop isInf rest pm.length
          ⟨pm ++ List.replicate rest.length false, pf ++ pad, pf.length⟩ =
        ⟨pm ++ rest.map isInf,
          pf ++ rest.filter (fun e => !isInf e) ++
            pad.drop (rest.filter (fun e => !isInf e)).length,
          pf.length + (rest.filter (fun e => !isInf e)).length⟩ := by
  intro rest
  induction rest with
  | nil => intro pm pf pad _; simp [filterLoop]
  | cons e rest ih =>
    intro pm pf pad hlen
    cases pad with
    | nil => simp at hlen
    | cons q pad =>
      simp only [List.length_cons, Nat.add_le_add_iff_right] at hlen
      by_cases h : isInf e = true
      · have := ih (pm ++ [true]) pf (q :: pad) (by simp; omega)
        simp only [List.length_append, List.length_singleton, List.append_assoc,
          List.singleton_append] at this
        simp [filterLoop, h, List.replicate_succ, this]
      · have := ih (pm ++ [false]) (pf ++ [e]) pad hlen
        simp only [List.length_append, List.length_singleton, List.append_assoc,
          List.singleton_append] at this
        simp [filterLoop, h, List.replicate_succ, this]
        omega

theorem reconstructLoop_spec {α : Type} (zero : α) :
    ∀ (ms : List Bool) (fs pre fpre : List α),
      (reconstructLoop zero (fpre ++ fs) ms pre.length
          ⟨pre ++ List.replicate ms.length zero, fpre.length⟩).full =
        pre ++ interleave zero ms fs := by
  intro ms
  induction ms with
  | nil => intro fs pre fpre; simp [reconstructLoop, interleave]
  | cons m ms ih =>
    intro fs pre fpre
    cases m with
    | true =>
      have := ih fs (pre ++ [zero]) fpre
      simp only [List.length_append, List.length_singleton, List.append_assoc,
        List.singleton_append] at this
      simp [reconstructLoop, interleave, List.replicate_succ, this]
    | false =>
      cases fs with
      | nil =>
        have := ih [] (pre ++ [zero]) fpre
        simp only [List.length_append, List.length_singleton, List.append_assoc,
          List.singleton_append, List.append_nil] at this
        simp [reconstructLoop, interleave, List.replicate_succ, this]
      | cons f fs =>
        have := ih fs (pre ++ [f]) (fpre ++ [f])
        simp only [List.length_append, List.length_singleton, List.append_assoc,
          List.singleton_append] at this
        have hg : (fpre ++ f :: fs).getD fpre.length zero = f := by
          rw [List.getD_eq_getElem?_getD, List.getElem?_append_right (Nat.le_refl _)]
          simp
        simp only [reconstructLoop, interleave, List.replicate_succ, List.length_cons,
          List.length_append, Bool.false_eq_true, if_false, hg]
        simp [this]

theorem filterLoop_run {α : Type} (isInf : α → Bool) (zero : α) (buff : List α) :
    let st := filterLoop isInf buff 0
      ⟨List.replicate buff.length false, List.replicate buff.length zero, 0⟩
    st.filtered.take st.j = buff.filter (fun e => !isInf e) ∧
      st.infinityAt = buff.map isInf ∧
      st.j = (buff.filter (fun e => !isInf e)).length := by
  have := filterLoop_spec isInf buff [] [] (List.replicate buff.length zero) (by simp)
  simp only [List.length_nil, List.nil_append, Nat.zero_add] at this
  simp [this]

theorem interleave_map_filter {α : Type} (isInf : α → Bool) (zero : α)
    (hz : ∀ p, isInf p = true → p = zero) :
    ∀ buff : List α, interleave zero (buff.map isInf) (buff.filter (fun e => !isInf e)) = buff := by
  intro buff
  induction buff with
  | nil => simp [interleave]
  | cons e rest ih =>
    by_cases h : isInf e = true
    · have he := hz e h
      subst he
      simp [h, interleave, ih]
    · simp [h, interleave, ih]

theorem map_filter_interleave {α : Type} (isInf : α → Bool) (zero : α)
    (hz : isInf zero = true) :
    ∀ (ms : List Bool) (fs : List α), (∀ f ∈ fs, isInf f = false) →
      fs.length = ms.count false →
      (interleave zero ms fs).map isInf = ms ∧
        (interleave zero ms fs).filter (fun e => !isInf e) = fs := by
  intro ms
  induction ms with
  | nil =>
    intro fs _ hlen
    simp at hlen
    simp [interleave, hlen]
  | cons m ms ih =>
    intro fs hfs hlen
    cases m with
    | true =>
      have := ih fs hfs (by simpa using hlen)
      simp [interleave, hz, this]
    | false =>
      cases fs with
      | nil => simp at hlen
      | cons f fs =>
        have hf : isInf f = false := hfs f (by simp)
        have := ih fs (fun g hg => hfs g (by simp [hg])) (by simpa using hlen)
        simp [interleave, hf, this]

theorem filterInfinityG1_loop_eq :
    ∀ (rest : List G1Affine) (i : Nat) (st : FilterState G1Affine),
      filterInfinityG1.loop rest i st = filterLoop G1Affine.IsInfinity rest i st := by
  intro rest
  induction rest with
  | nil => intro i st; rfl
  | cons e rest ih =>
    intro i st
    simp only [filterInfinityG1.loop, filterLoop, ih]

theorem filterInfinityG2_loop_eq :
    ∀ (rest : List G2Affine) (i : Nat) (st : FilterState G2Affine),
      filterInfinityG2.loop rest i st = filterLoop G2Affine.IsInfinity rest i st := by
  intro rest
  induction rest with
  | nil => intro i st; rfl
  | cons e rest ih =>
    intro i st
    simp only [filterInfinityG2.loop, filterLoop, ih]

theorem reconstructG1WithInfinity_loop_eq (filtered : List G1Affine) :
    ∀ (ms : List Bool) (i : Nat) (st : ReconstructState G1Affine),
      reconstructG1WithInfinity.loop filtered ms i st =
        reconstructLoop G1Affine.zero filtered ms i st := by
  intro ms
  induction ms with
  | nil => intro i st; rfl
  | cons m ms ih =>
    intro i st
    simp only [reconstructG1WithInfinity.loop, reconstructLoop, ih]
    rfl

theorem reconstructG2WithInfinity_loop_eq (filtered : List G2Affine) :
    ∀ (ms : List Bool) (i : Nat) (st : ReconstructState G2Affine),
      reconstructG2WithInfinity.loop filtered ms i st =
        reconstructLoop G2Affine.zero filtered ms i st := by
  intro ms
  induction ms with
  | nil => intro i st; rfl
  | cons m ms ih =>
    intro i st
    simp only [reconstructG2WithInfinity.loop, reconstructLoop, ih]
    rfl

/-- What `filterInfinityG1` returns, in closed form. -/
theorem filterInfinityG1_eq (buff : List G1Affine) :
    filterInfinityG1 buff =
      (buff.filter (fun e => !e.IsInfinity), buff.map G1Affine.IsInfinity,
        toUint64 ((buff.length : Int) - ((buff.filter (fun e => !e.IsInfinity)).length : Int))) := by
  have h := filterLoop_run G1Affine.IsInfinity G1Affine.zero buff
  simp only at h
  obtain ⟨h1, h2, h3⟩ := h
  rw [h3] at h1
  simp only [filterInfinityG1, filterInfinityG1_loop_eq, h1, h2, h3]

/-- What `filterInfinityG2` returns, in closed form. -/
theorem filterInfinityG2_eq (buff : List G2Affine) :
    filterInfinityG2 buff =
      (buff.filter (fun e => !e.IsInfinity), buff.map G2Affine.IsInfinity,
        toUint64 ((buff.length : Int) - ((buff.filter (fun e => !e.IsInfinity)).length : Int))) := by
  have h := filterLoop_run G2Affine.IsInfinity G2Affine.zero buff
  simp only at h
  obtain ⟨h1, h2, h3⟩ := h
  rw [h3] at h1
  simp only [filterInfinityG2, filterInfinityG2_loop_eq, h1, h2, h3]

/-- What `reconstructG1WithInfinity` returns, in closed form. -/
theorem reconstructG1WithInfinity_eq (filtered : List G1Affine) (mask : List Bool) :
    reconstructG1WithInfinity filtered mask = interleave G1Affine.zero mask filtered := by
  have h := reconstructLoop_spec G1Affine.zero mask filtered [] []
  simp only [List.length_nil, List.nil_append] at h
  simp only [reconstructG1WithInfinity, reconstructG1WithInfinity_loop_eq, h]

/-- What `reconstructG2WithInfinity` returns, in closed form. -/
theorem reconstructG2WithInfinity_eq (filtered : List G2Affine) (mask : List Bool) :
    reconstructG2WithInfinity filtered mask = interleave G2Affine.zero mask filtered := by
  have h := reconstructLoop_spec G2Affine.zero mask filtered [] []
  simp only [List.length_nil, List.nil_append] at h
  simp only [reconstructG2WithInfinity, reconstructG2WithInfinity_loop_eq, h]

theorem filter_length_add_countP {α : Type} (p : α → Bool) (l : List α) :
    (l.filter (fun e => !p e)).length + l.countP p = l.length := by
  induction l with
  | nil => simp
  | cons a l ih =>
    by_cases h : p a = true
    · simp [h]; omega
    · simp [h]; omega

theorem count_true_map {α : Type} (p : α → Bool) (l : List α) :
    (l.map p).count true = l.countP p := by
  induction l with
  | nil => simp
  | cons a l ih =>
    by_cases h : p a = true
    · simp [h, ih]
    · simp [h, ih]

theorem count_false_add_count_true (ms : List Bool) :
    ms.count false + ms.count true = ms.length := by
  induction ms with
  | nil => simp
  | cons m ms ih => cases m <;> simp <;> omega

/-! ## Infinity filtering: the claims -/

/-- C1: for every array of G1 points, `filterInfinityG1` returns as `filtered` the
subsequence of the non-infinity entries in their original order, none of which
is the point at infinity, and a mask of the length of the input whose entry `i`
is `true` exactly when entry `i` of the input is the point at infinity; the
same holds for `filterInfinityG2` over G2 points. -/
theorem filterInfinity_filtered_and_mask (buffG1 : List G1Affine) (buffG2 : List G2Affine) :
    ((filterInfinityG1 buffG1).1 = buffG1.filter (fun p => !p.IsInfinity) ∧
      (∀ p ∈ (filterInfinityG1 buffG1).1, p.IsInfinity = false ∧ p ≠ G1Affine.zero) ∧
      (filterInfinityG1 buffG1).2.1.length = buffG1.length ∧
      ∀ (i : Nat) (h : i < buffG1.length),
        ((filterInfinityG1 buffG1).2.1.getD i false = true ↔
          buffG1.get ⟨i, h⟩ = G1Affine.zero)) ∧
    ((filterInfinityG2 buffG2).1 = buffG2.filter (fun p => !p.IsInfinity) ∧
      (∀ p ∈ (filterInfinityG2 buffG2).1, p.IsInfinity = false ∧ p ≠ G2Affine.zero) ∧
      (filterInfinityG2 buffG2).2.1.length = buffG2.length ∧
      ∀ (i : Nat) (h : i < buffG2.length),
        ((filterInfinityG2 buffG2).2.1.getD i false = true ↔
          buffG2.get ⟨i, h⟩ = G2Affine.zero)) := by
  rw [filterInfinityG1_eq, filterInfinityG2_eq]
  refine ⟨⟨rfl, ?_, by simp, ?_⟩, ⟨rfl, ?_, by simp, ?_⟩⟩
  · intro p hp
    have hp2 : p.IsInfinity = false := by simpa using (List.mem_filter.mp hp).2
    refine ⟨hp2, fun hz => ?_⟩
    rw [(g1_isInfinity_iff_zero p).mpr hz] at hp2
    exact Bool.noConfusion hp2
  · intro i h
    rw [← g1_isInfinity_iff_zero]
    simp [List.getD_eq_getElem?_getD, List.getElem?_eq_getElem h]
  · intro p hp
    have hp2 : p.IsInfinity = false := by simpa using (List.mem_filter.mp hp).2
    refine ⟨hp2, fun hz => ?_⟩
    rw [(g2_isInfinity_iff_zero p).mpr hz] at hp2
    exact Bool.noConfusion hp2
  · intro i h
    rw [← g2_isInfinity_iff_zero]
    simp [List.getD_eq_getElem?_getD, List.getElem?_eq_getElem h]

/-- C2: round trip.  For every array of G1 points, reconstructing from the filtered
array and the mask that `filterInfinityG1` returns gives the array back, element
for element and with the same length; the same holds for `filterInfinityG2`
followed by `reconstructG2WithInfinity`. -/
theorem reconstruct_filter_roundtrip (buffG1 : List G1Affine) (buffG2 : List G2Affine) :
    (reconstructG1WithInfinity (filterInfinityG1 buffG1).1 (filterInfinityG1 buffG1).2.1 = buffG1 ∧
      (reconstructG1WithInfinity (filterInfinityG1 buffG1).1
        (filterInfinityG1 buffG1).2.1).length = buffG1.length) ∧
    (reconstructG2WithInfinity (filterInfinityG2 buffG2).1 (filterInfinityG2 buffG2).2.1 = buffG2 ∧
      (reconstructG2WithInfinity (filterInfinityG2 buffG2).1
        (filterInfinityG2 buffG2).2.1).length = buffG2.length) := by
  have h1 : reconstructG1WithInfinity (filterInfinityG1 buffG1).1
      (filterInfinityG1 buffG1).2.1 = buffG1 := by
    rw [filterInfinityG1_eq, reconstructG1WithInfinity_eq]
    exact interleave_map_filter G1Affine.IsInfinity G1Affine.zero
      (fun p hp => (g1_isInfinity_iff_zero p).mp hp) buffG1
  have h2 : reconstructG2WithInfinity (filterInfinityG2 buffG2).1
      (filterInfinityG2 buffG2).2.1 = buffG2 := by
    rw [filterInfinityG2_eq, reconstructG2WithInfinity_eq]
    exact interleave_map_filter G2Affine.IsInfinity G2Affine.zero
      (fun p hp => (g2_isInfinity_iff_zero p).mp hp) buffG2
  exact ⟨⟨h1, by rw [h1]⟩, ⟨h2, by rw [h2]⟩⟩

/-- C8: `reconstructG1WithInfinity` is a right inverse of `filterInfinityG1`.  For
every mask `m` (of a length a Go slice can have) and every array `f` of G1
points none of which is the point at infinity, with as many points as `m` has
`false` entries, filtering the reconstructed array returns `f`, `m` and the
number of `true` entries of `m`. -/
theorem filter_reconstruct_right_inverse (m : List Bool) (f : List G1Affine)
    (hf : ∀ p ∈ f, p.IsInfinity = false) (hlen : f.length = m.count false)
    (hm : m.length < 2 ^ 64) :
    filterInfinityG1 (reconstructG1WithInfinity f m) = (f, m, m.count true) := by
  obtain ⟨h1, h2⟩ := map_filter_interleave G1Affine.IsInfinity G1Affine.zero
    ((g1_isInfinity_iff_zero _).mpr rfl) m f hf hlen
  have h3 : (interleave G1Affine.zero m f).length = m.length := by
    rw [← List.length_map (interleave G1Affine.zero m f) G1Affine.IsInfinity, h1]
  have h4 := count_false_add_count_true m
  rw [reconstructG1WithInfinity_eq, filterInfinityG1_eq, h1, h2, h3, hlen]
  have h5 : ((m.length : Int) - ((m.count false : Nat) : Int)) = ((m.count true : Nat) : Int) := by
    omega
  rw [h5, toUint64_of_lt _ (by omega)]

/-- The right-inverse property at a mask with one infinity and a one-point array,
which meet its hypotheses. -/
theorem filter_reconstruct_right_inverse_witness :
    (∀ p ∈ [(⟨1, 2⟩ : G1Affine)], p.IsInfinity = false) ∧
      [(⟨1, 2⟩ : G1Affine)].length = [false, true].count false ∧
      [false, true].length < 2 ^ 64 ∧
      filterInfinityG1 (reconstructG1WithInfinity [⟨1, 2⟩] [false, true]) =
        ([⟨1, 2⟩], [false, true], 1) :=
  ⟨by decide, by decide, by decide,
    filter_reconstruct_right_inverse [false, true] [⟨1, 2⟩] (by decide) (by decide) (by decide)⟩

/-! ## Decoding what the layouts hold -/

theorem decodeG1Points_map (raw : Bool) (rest : List Item) :
    ∀ ps : List G1Affine,
      decodeG1Points ps.length (ps.map (Item.g1 raw) ++ rest) = .ok (ps, rest) := by
  intro ps
  induction ps with
  | nil => rfl
  | cons p ps ih =>
    simp [decodeG1Points, decodeG1, ih, bind, Except.bind, pure, Except.pure]

theorem decodeG2Points_map (raw : Bool) (rest : List Item) :
    ∀ ps : List G2Affine,
      decodeG2Points ps.length (ps.map (Item.g2 raw) ++ rest) = .ok (ps, rest) := by
  intro ps
  induction ps with
  | nil => rfl
  | cons p ps ih =>
    simp [decodeG2Points, decodeG2, ih, bind, Except.bind, pure, Except.pure]

theorem decodeG1Slice_encode (raw : Bool) (ps : List G1Affine) (rest : List Item) :
    decodeG1Slice (encodeG1Slice raw ps ++ rest) = .ok (ps, rest) := by
  simp [decodeG1Slice, encodeG1Slice, decodeUint32, decodeG1Points_map, bind, Except.bind]

theorem decodeG2Slice_encode (raw : Bool) (ps : List G2Affine) (rest : List Item) :
    decodeG2Slice (encodeG2Slice raw ps ++ rest) = .ok (ps, rest) := by
  simp [decodeG2Slice, encodeG2Slice, decodeUint32, decodeG2Points_map, bind, Except.bind]

theorem decodeInto_map (raw : Bool) (rest : List Item) :
    ∀ (ps pre : List G1Affine),
      extractPK.decodeInto ps.length pre.length
          (pre ++ List.replicate ps.length G1Affine.zero) (ps.map (Item.g1 raw) ++ rest) =
        .ok (pre ++ ps, rest) := by
  intro ps
  induction ps with
  | nil => intro pre; simp [extractPK.decodeInto]
  | cons p ps ih =>
    intro pre
    have := ih (pre ++ [p])
    simp only [List.length_append, List.length_singleton, List.append_assoc,
      List.singleton_append] at this
    simp [extractPK.decodeInto, decodeG1, List.replicate_succ, this, bind, Except.bind]

/-! ## Byte offsets -/

theorem byteSize_nil : byteSize [] = 0 := rfl

theorem byteSize_cons (it : Item) (rest : List Item) :
    byteSize (it :: rest) = it.size + byteSize rest := rfl

theorem byteSize_append (a b : List Item) : byteSize (a ++ b) = byteSize a + byteSize b := by
  induction a with
  | nil => simp [byteSize_nil]
  | cons it a ih => simp [byteSize_cons, ih]; omega

theorem byteSize_map_g1 (raw : Bool) (ps : List G1Affine) :
    byteSize (ps.map (Item.g1 raw)) = ps.length * (if raw then 64 else 32) := by
  induction ps with
  | nil => simp [byteSize_nil]
  | cons p ps ih => cases raw <;> simp [byteSize_cons, Item.size, ih] <;> omega

theorem byteSize_map_g2 (raw : Bool) (ps : List G2Affine) :
    byteSize (ps.map (Item.g2 raw)) = ps.length * (if raw then 128 else 64) := by
  induction ps with
  | nil => simp [byteSize_nil]
  | cons p ps ih => cases raw <;> simp [byteSize_cons, Item.size, ih] <;> omega

/-- The byte offset of the VKK section in an evals file: the three leading
points, three length prefixes, and the points of `A`, `B` and `B2`. -/
theorem byteSize_evalsBeforeVKK (raw : Bool) (e : Evals) :
    byteSize (evalsBeforeVKK raw e) =
      (if raw then 256 else 128) + 12 +
        (e.A.length + e.B.length) * (if raw then 64 else 32) +
        e.B2.length * (if raw then 128 else 64) := by
  simp only [evalsBeforeVKK, encodeG1Slice, encodeG2Slice, List.cons_append, List.nil_append,
    List.append_assoc]
  simp only [byteSize_cons, byteSize_append, byteSize_map_g1, byteSize_map_g2, Item.size]
  cases raw <;> simp <;> omega

theorem valuesFrom_append (b : List Item) :
    ∀ a : List Item, (∀ it ∈ a, 0 < it.size) →
      valuesFrom (a ++ b) (byteSize a) = some b := by
  intro a
  induction a with
  | nil =>
    intro _
    cases b <;> simp [valuesFrom, byteSize_nil]
  | cons it a ih =>
    intro h
    have hit : 0 < it.size := h it (by simp)
    have := ih (fun x hx => h x (by simp [hx]))
    simp only [List.cons_append, valuesFrom, byteSize_cons]
    rw [if_neg (by omega), if_pos (by omega)]
    simpa using this

theorem evalsBeforeVKK_size_pos (raw : Bool) (e : Evals) :
    ∀ it ∈ evalsBeforeVKK raw e, 0 < it.size := by
  intro it hit
  simp only [evalsBeforeVKK, encodeG1Slice, encodeG2Slice, List.mem_append, List.mem_cons,
    List.mem_map, List.mem_singleton, List.not_mem_nil, or_false, or_assoc] at hit
  rcases hit with h | h | h | h | ⟨p, _, h⟩ | h | ⟨p, _, h⟩ | h | ⟨p, _, h⟩ <;>
    subst h <;> cases raw <;> simp [Item.size]

/-- In the compressed layout of a file of `w < 2^32` wires, seeking to
`vkkSeekOffset w` leaves the reader at the length prefix of the VKK section. -/
theorem seekStart_evalsLayout_compressed (inside : List Item → Nat → List Item)
    (e : Evals) (w : Nat) (hw : w < 2 ^ 32)
    (hA : e.A.length = w) (hB : e.B.length = w) (hB2 : e.B2.length = w) :
    seekStart inside (evalsLayout false e) (vkkSeekOffset w) =
      .ok (encodeG1Slice false e.VKK ++ encodeG1Slice false e.CKK) := by
  have hoff : vkkSeekOffset w = ((byteSize (evalsBeforeVKK false e) : Nat) : Int) := by
    rw [byteSize_evalsBeforeVKK, hA, hB, hB2]
    unfold vkkSeekOffset
    rw [toInt64_of_lt _ (by omega) (by omega)]
    simp only [Bool.false_eq_true, if_false]
    push_cast
    omega
  rw [hoff]
  unfold seekStart evalsLayout
  rw [if_neg (by omega), Int.toNat_ofNat,
    valuesFrom_append _ _ (evalsBeforeVKK_size_pos false e)]

/-! ## The domain of the proving key -/

theorem nextPowerOfTwo_loop_le (n : Nat) (hn : n ≤ 2 ^ 28) :
    ∀ (fuel j : Nat), j ≤ 28 → 28 ≤ j + fuel →
      NextPowerOfTwo.loop fuel (2 ^ j) n ≤ 2 ^ 28 := by
  intro fuel
  induction fuel with
  | zero =>
    intro j hj hf
    have hj28 : j = 28 := by omega
    subst hj28
    exact Nat.le_refl _
  | succ fuel ih =>
    intro j hj hf
    unfold NextPowerOfTwo.loop
    by_cases hc : n ≤ 2 ^ j
    · rw [if_pos hc]
      exact Nat.pow_le_pow_right (by decide) hj
    · rw [if_neg hc]
      have hj28 : j ≠ 28 := by
        intro h28
        subst h28
        exact hc hn
      have := ih (j + 1) (by omega) (by omega)
      rw [Nat.pow_succ, Nat.mul_comm] at this
      exact this

/-- For a size of at most `2^28`, `fft.NewDomain` returns a domain. -/
theorem newDomain_of_le (m : Nat) (hm : m ≤ 2 ^ 28) :
    fft.NewDomain m = .ok { Cardinality := NextPowerOfTwo m } := by
  have hle : NextPowerOfTwo m ≤ 2 ^ 28 := by
    have := nextPowerOfTwo_loop_le m hm 64 0 (by decide) (by decide)
    simpa [NextPowerOfTwo] using this
  unfold fft.NewDomain
  dsimp only
  rw [if_neg (by omega)]

/-! ## Key extraction on well-formed files -/

theorem except_ok_bind {ε α β : Type} (a : α) (f : α → Except ε β) :
    (Except.ok a >>= f) = f a := rfl

theorem except_bind_eq_ok {ε α β : Type} {x : Except ε α} {f : α → Except ε β} {b : β}
    (h : (x >>= f) = .ok b) : ∃ a, x = .ok a ∧ f a = .ok b := by
  cases x with
  | error err => cases h
  | ok a => exact ⟨a, rfl, h⟩

theorem decodeG1_cons (raw : Bool) (p : G1Affine) (rest : List Item) :
    decodeG1 (Item.g1 raw p :: rest) = .ok (p, rest) := rfl

theorem decodeG2_cons (raw : Bool) (p : G2Affine) (rest : List Item) :
    decodeG2 (Item.g2 raw p :: rest) = .ok (p, rest) := rfl

theorem decodeG1Slice_encode_end (raw : Bool) (ps : List G1Affine) :
    decodeG1Slice (encodeG1Slice raw ps) = .ok (ps, []) := by
  have := decodeG1Slice_encode raw ps []
  simpa using this

theorem makeG1_ofNat (n : Nat) : makeG1 (n : Int) = .ok (List.replicate n G1Affine.zero) := by
  unfold makeG1
  rw [if_neg (by omega), Int.toNat_ofNat]

theorem evalsLayout_eq (raw : Bool) (e : Evals) :
    evalsLayout raw e =
      Item.g1 raw e.AlphaG1 :: Item.g1 raw e.BetaG1 :: Item.g2 raw e.BetaG2 ::
        (encodeG1Slice raw e.A ++ (encodeG1Slice raw e.B ++ (encodeG2Slice raw e.B2 ++
          (encodeG1Slice raw e.VKK ++ encodeG1Slice raw e.CKK)))) := by
  simp only [evalsLayout, evalsBeforeVKK, List.cons_append, List.nil_append, List.append_assoc]

theorem phase2Layout_eq (raw : Bool) (deltaG1 : G1Affine) (deltaG2 : G2Affine)
    (Z PKK : List G1Affine) (contributions : List Item) :
    phase2Layout raw deltaG1 deltaG2 Z PKK contributions =
      Item.g1 raw deltaG1 :: Item.g2 raw deltaG2 ::
        (Z.map (Item.g1 raw) ++ (PKK.map (Item.g1 raw) ++ contributions)) := by
  simp only [phase2Layout, List.cons_append, List.nil_append, List.append_assoc]

theorem phase2Layout_snoc (raw : Bool) (deltaG1 : G1Affine) (deltaG2 : G2Affine)
    (Zi : List G1Affine) (zl : G1Affine) (PKK : List G1Affine) (contributions : List Item) :
    phase2Layout raw deltaG1 deltaG2 (Zi ++ [zl]) PKK contributions =
      Item.g1 raw deltaG1 :: Item.g2 raw deltaG2 :: (Zi.map (Item.g1 raw) ++
        Item.g1 raw zl :: (PKK.map (Item.g1 raw) ++ contributions)) := by
  simp only [phase2Layout_eq, List.map_append, List.map_cons, List.map_nil,
    List.append_assoc, List.cons_append, List.nil_append]

/-- The proving key `extractPK` builds from a Phase-2 file laid out as
`δG1, δG2, Z, PKK` with `Z = Zi ++ [zl]` of at most `2^28` entries and an
evals file in the compressed layout: every field, in closed form. -/
theorem extractPK_layout (inside : List Item → Nat → List Item)
    (h : Header) (e : Evals) (raw : Bool) (deltaG1 : G1Affine)
    (deltaG2 : G2Affine) (Zi : List G1Affine) (zl : G1Affine) (PKK : List G1Affine)
    (contributions : List Item)
    (hd : h.Domain = Zi.length + 1) (hmax : h.Domain ≤ 2 ^ 28)
    (hk : h.Witness = PKK.length) (hw : h.Wires < 2 ^ 32)
    (hA : e.A.length = h.Wires) (hB : e.B.length = h.Wires) (hB2 : e.B2.length = h.Wires) :
    extractPK inside ⟨.ok h, phase2Layout raw deltaG1 deltaG2 (Zi ++ [zl]) PKK contributions⟩
        (evalsLayout false e) =
      .ok { Domain := { Cardinality := NextPowerOfTwo h.Domain }
            G1 := { Alpha := e.AlphaG1, Beta := e.BetaG1, Delta := deltaG1,
                    A := (filterInfinityG1 e.A).1, B := (filterInfinityG1 e.B).1,
                    Z := Zi, K := PKK }
            G2 := { Beta := e.BetaG2, Delta := deltaG2, B := (filterInfinityG2 e.B2).1 }
            InfinityA := (filterInfinityG1 e.A).2.1
            InfinityB := (filterInfinityG1 e.B).2.1
            NbInfinityA := (filterInfinityG1 e.A).2.2
            NbInfinityB := (filterInfinityG1 e.B).2.2
            CommitmentKeys := [] } := by
  have hs := seekStart_evalsLayout_compressed inside e h.Wires hw hA hB hB2
  unfold vkkSeekOffset at hs
  have hz := decodeInto_map raw (Item.g1 raw zl :: (PKK.map (Item.g1 raw) ++ contributions)) Zi []
  have hk2 := decodeInto_map raw contributions PKK []
  simp only [List.nil_append, List.length_nil] at hz hk2
  have hdom : ((h.Domain : Int) - 1) = ((Zi.length : Nat) : Int) := by omega
  have hnd : fft.NewDomain (toUint64 (h.Domain : Int)) =
      .ok { Cardinality := NextPowerOfTwo h.Domain } := by
    rw [toUint64_of_lt _ (by omega)]
    exact newDomain_of_le _ hmax
  unfold extractPK
  dsimp only
  rw [except_ok_bind, hnd, except_ok_bind, hs, phase2Layout_snoc, evalsLayout_eq, hdom, hk,
    Int.toNat_ofNat]
  rw [decodeG1_cons, except_ok_bind]
  dsimp only
  rw [decodeG1_cons, except_ok_bind]
  dsimp only
  rw [decodeG1_cons, except_ok_bind]
  dsimp only
  rw [decodeG2_cons, except_ok_bind]
  dsimp only
  rw [decodeG2_cons, except_ok_bind]
  dsimp only
  rw [decodeG1Slice_encode, except_ok_bind]
  dsimp only
  rw [decodeG1Slice_encode, except_ok_bind]
  dsimp only
  rw [makeG1_ofNat, except_ok_bind, hz, except_ok_bind]
  dsimp only
  rw [decodeG1_cons, except_ok_bind]
  dsimp only
  rw [makeG1_ofNat, except_ok_bind, hk2, except_ok_bind]
  dsimp only
  rw [decodeG2Slice_encode, except_ok_bind]
  dsimp only
  rw [except_ok_bind, decodeG1Slice_encode, except_ok_bind]
  dsimp only
  rw [decodeG1Slice_encode_end, except_ok_bind]
  rfl

/-- The verifying key `extractVK` builds from a Phase-2 file laid out as
`δG1, δG2, Z, PKK` and an evals file in the compressed layout, up to the
commitment key: the result is that of `pedersen.Setup` when `CKK` is not
empty. -/
theorem extractVK_layout (inside : List Item → Nat → List Item) (gammaG2 : G2Affine)
    (Setup : List (List G1Affine) →
      Except String (List pedersen.ProvingKey × pedersen.VerifyingKey))
    (h : Header) (e : Evals) (raw : Bool) (deltaG1 : G1Affine)
    (deltaG2 : G2Affine) (Z PKK : List G1Affine) (contributions : List Item)
    (hw : h.Wires < 2 ^ 32)
    (hA : e.A.length = h.Wires) (hB : e.B.length = h.Wires) (hB2 : e.B2.length = h.Wires) :
    extractVK inside gammaG2 Setup
        ⟨.ok h, phase2Layout raw deltaG1 deltaG2 Z PKK contributions⟩ (evalsLayout false e) =
      if e.CKK.length > 0 then
        match Setup [e.CKK] with
        | .error err => .error err
        | .ok (_, commitmentKey) =>
          .ok { G1 := { Alpha := e.AlphaG1, Beta := e.BetaG1, Delta := deltaG1, K := e.VKK }
                G2 := { Beta := e.BetaG2, Delta := deltaG2, Gamma := gammaG2 }
                CommitmentKeys := [commitmentKey] }
      else
        .ok { G1 := { Alpha := e.AlphaG1, Beta := e.BetaG1, Delta := deltaG1, K := e.VKK }
              G2 := { Beta := e.BetaG2, Delta := deltaG2, Gamma := gammaG2 }
              CommitmentKeys := [] } := by
  have hs := seekStart_evalsLayout_compressed inside e h.Wires hw hA hB hB2
  unfold vkkSeekOffset at hs
  unfold extractVK
  dsimp only
  rw [except_ok_bind, hs, phase2Layout_eq, evalsLayout_eq]
  rw [decodeG1_cons, except_ok_bind]
  dsimp only
  rw [decodeG1_cons, except_ok_bind]
  dsimp only
  rw [decodeG2_cons, except_ok_bind]
  dsimp only
  rw [decodeG1_cons, except_ok_bind]
  dsimp only
  rw [decodeG2_cons, except_ok_bind]
  dsimp only
  rw [except_ok_bind, decodeG1Slice_encode, except_ok_bind]
  dsimp only
  rw [decodeG1Slice_encode_end, except_ok_bind]
  dsimp only
  by_cases hc : e.CKK.length > 0
  · simp only [hc, if_true]
    cases hS : Setup [e.CKK] with
    | error err => rfl
    | ok r => rfl
  · simp only [hc, if_false]
    rfl

theorem countP_isInfinity_eq_count (l : List G1Affine) :
    l.countP G1Affine.IsInfinity = l.count G1Affine.zero := by
  induction l with
  | nil => rfl
  | cons p l ih =>
    by_cases hp : p.IsInfinity = true
    · have hz := (g1_isInfinity_iff_zero p).mp hp
      subst hz
      simp [hp, ih]
    · have hz : ¬ p = G1Affine.zero := fun hz => hp ((g1_isInfinity_iff_zero p).mpr hz)
      simp [hp, ih, List.count_cons, hz]

/-! ## Key extraction: the claims -/

/-- C3: for a Phase-2 file whose header has domain `d ≥ 1` and witness count `k`
and whose body is `δG1, δG2, Z[0..d-1], PKK[0..k-1]` in that order, and for any
evals file, every proving key `extractPK` builds has a `Z` of exactly `d - 1`
entries, the first `d - 1` entries of the Phase-2 `Z`, and a `K` of `k`
entries that is `PKK`: the entry read and discarded does not shift the `PKK`
read.  A key is built when `d ≤ 2^28` and the evals file is in the compressed
layout with as many points in `A`, `B` and `B2` as the header has wires. -/
theorem extractPK_Z_drops_last (inside : List Item → Nat → List Item)
    (h : Header) (raw : Bool) (deltaG1 : G1Affine) (deltaG2 : G2Affine)
    (Z PKK : List G1Affine) (contributions : List Item) (evalsFile : List Item)
    (hd : 1 ≤ h.Domain) (hZ : Z.length = h.Domain) (hk : PKK.length = h.Witness) :
    (∀ pk, extractPK inside ⟨.ok h, phase2Layout raw deltaG1 deltaG2 Z PKK contributions⟩
        evalsFile = .ok pk →
      pk.G1.Z = Z.take (h.Domain - 1) ∧ pk.G1.Z.length = h.Domain - 1 ∧
      pk.G1.K = PKK ∧ pk.G1.K.length = h.Witness) ∧
    (∀ e : Evals, evalsFile = evalsLayout false e → h.Domain ≤ 2 ^ 28 → h.Wires < 2 ^ 32 →
      e.A.length = h.Wires → e.B.length = h.Wires → e.B2.length = h.Wires →
      ∃ pk, extractPK inside ⟨.ok h, phase2Layout raw deltaG1 deltaG2 Z PKK contributions⟩
        evalsFile = .ok pk) := by
  have hne : Z ≠ [] := by
    intro h0
    rw [h0] at hZ
    simp at hZ
    omega
  have hsplit : Z = Z.dropLast ++ [Z.getLast hne] := (List.dropLast_append_getLast hne).symm
  have hdl : Z.dropLast.length = h.Domain - 1 := by simp [hZ]
  have htake : Z.dropLast = Z.take (h.Domain - 1) := by rw [List.dropLast_eq_take, hZ]
  constructor
  · intro pk hok
    have hz := decodeInto_map raw
      (Item.g1 raw (Z.getLast hne) :: (PKK.map (Item.g1 raw) ++ contributions)) Z.dropLast []
    have hk2 := decodeInto_map raw contributions PKK []
    simp only [List.nil_append, List.length_nil] at hz hk2
    have hdom : ((h.Domain : Int) - 1) = ((Z.dropLast.length : Nat) : Int) := by omega
    rw [hsplit] at hok
    unfold extractPK at hok
    dsimp only at hok
    rw [except_ok_bind, phase2Layout_snoc, hdom, ← hk, Int.toNat_ofNat] at hok
    obtain ⟨dom, -, hok⟩ := except_bind_eq_ok hok
    obtain ⟨⟨alphaG1, e1⟩, -, hok⟩ := except_bind_eq_ok hok
    dsimp only at hok
    obtain ⟨⟨betaG1, e2⟩, -, hok⟩ := except_bind_eq_ok hok
    dsimp only at hok
    rw [decodeG1_cons, except_ok_bind] at hok
    dsimp only at hok
    obtain ⟨⟨betaG2, e3⟩, -, hok⟩ := except_bind_eq_ok hok
    dsimp only at hok
    rw [decodeG2_cons, except_ok_bind] at hok
    dsimp only at hok
    obtain ⟨⟨buffA, e4⟩, -, hok⟩ := except_bind_eq_ok hok
    dsimp only at hok
    obtain ⟨⟨buffB, e5⟩, -, hok⟩ := except_bind_eq_ok hok
    dsimp only at hok
    rw [makeG1_ofNat, except_ok_bind, hz, except_ok_bind] at hok
    dsimp only at hok
    rw [decodeG1_cons, except_ok_bind] at hok
    dsimp only at hok
    rw [makeG1_ofNat, except_ok_bind, hk2, except_ok_bind] at hok
    dsimp only at hok
    obtain ⟨⟨buffB2, e6⟩, -, hok⟩ := except_bind_eq_ok hok
    dsimp only at hok
    obtain ⟨r, -, hok⟩ := except_bind_eq_ok hok
    obtain ⟨⟨vkK, r1⟩, -, hok⟩ := except_bind_eq_ok hok
    dsimp only at hok
    obtain ⟨⟨ckk, r2⟩, -, hok⟩ := except_bind_eq_ok hok
    have hpk := Except.ok.inj hok
    rw [← hpk]
    exact ⟨htake, hdl, rfl, hk⟩
  · intro e he hmax hw hA hB hB2
    have hpk := extractPK_layout inside h e raw deltaG1 deltaG2 Z.dropLast (Z.getLast hne) PKK
      contributions (by omega) hmax hk.symm hw hA hB hB2
    rw [← hsplit, ← he] at hpk
    exact ⟨_, hpk⟩

/-- The sample Phase-2 file has domain 4, four `Z` entries and one `PKK` entry; the
proving key extracted from it has the first three `Z` entries, and one is
extracted with the sample evals file. -/
theorem extractPK_Z_drops_last_witness :
    (1 ≤ sampleHeader.Domain ∧
      [(⟨11, 1⟩ : G1Affine), ⟨12, 2⟩, ⟨13, 3⟩, ⟨14, 4⟩].length = sampleHeader.Domain ∧
      [(⟨21, 1⟩ : G1Affine)].length = sampleHeader.Witness) ∧
    extractPK sampleInside samplePhase2 (evalsLayout false sampleEvals) = .ok samplePK ∧
    ((∀ pk, extractPK sampleInside samplePhase2 (evalsLayout false sampleEvals) = .ok pk →
      pk.G1.Z = [(⟨11, 1⟩ : G1Affine), ⟨12, 2⟩, ⟨13, 3⟩, ⟨14, 4⟩].take (sampleHeader.Domain - 1) ∧
      pk.G1.Z.length = sampleHeader.Domain - 1 ∧
      pk.G1.K = [(⟨21, 1⟩ : G1Affine)] ∧ pk.G1.K.length = sampleHeader.Witness) ∧
    (∀ e : Evals, evalsLayout false sampleEvals = evalsLayout false e →
      sampleHeader.Domain ≤ 2 ^ 28 → sampleHeader.Wires < 2 ^ 32 →
      e.A.length = sampleHeader.Wires → e.B.length = sampleHeader.Wires →
      e.B2.length = sampleHeader.Wires →
      ∃ pk, extractPK sampleInside samplePhase2 (evalsLayout false sampleEvals) = .ok pk)) :=
  ⟨by decide, rfl,
    extractPK_Z_drops_last sampleInside sampleHeader true ⟨1, 1⟩ ⟨⟨1, 1⟩, ⟨1, 1⟩⟩
      [⟨11, 1⟩, ⟨12, 2⟩, ⟨13, 3⟩, ⟨14, 4⟩] [⟨21, 1⟩] [] (evalsLayout false sampleEvals)
      (by decide) (by decide) (by decide)⟩

/-- C4: for every array `A` of G1 points read from the evals file, that is the
vector the decoder returns after `αG1`, `βG1` and `βG2`, of a length a Go
slice can have, every proving key `extractPK` builds stores the mask and the
count of `filterInfinityG1 A`, and the number of `true` entries of the mask,
the stored count, the number of entries of `A` equal to the point at infinity
and `len(A) - len(filtered A)` are one and the same number, below `2^64`: the
conversion to an unsigned 64-bit integer does not wrap. -/
theorem extractPK_infinity_count (inside : List Item → Nat → List Item)
    (phase2File : Phase2File) (evalsFile : List Item) (pk : groth16bn254.ProvingKey)
    (alphaG1 betaG1 : G1Affine) (betaG2 : G2Affine) (A : List G1Affine)
    (r1 r2 r3 r4 : List Item)
    (h1 : decodeG1 evalsFile = .ok (alphaG1, r1)) (h2 : decodeG1 r1 = .ok (betaG1, r2))
    (h3 : decodeG2 r2 = .ok (betaG2, r3)) (h4 : decodeG1Slice r3 = .ok (A, r4))
    (hlen : A.length < 2 ^ 64)
    (hok : extractPK inside phase2File evalsFile = .ok pk) :
    (pk.G1.A, pk.InfinityA, pk.NbInfinityA) = filterInfinityG1 A ∧
      pk.InfinityA.count true = pk.NbInfinityA ∧
      pk.NbInfinityA = A.count G1Affine.zero ∧
      pk.G1.A.length ≤ A.length ∧
      pk.NbInfinityA = A.length - pk.G1.A.length ∧
      pk.NbInfinityA < 2 ^ 64 := by
  unfold extractPK at hok
  dsimp only at hok
  obtain ⟨header, -, hok⟩ := except_bind_eq_ok hok
  obtain ⟨dom, -, hok⟩ := except_bind_eq_ok hok
  rw [h1, except_ok_bind] at hok
  dsimp only at hok
  rw [h2, except_ok_bind] at hok
  dsimp only at hok
  obtain ⟨⟨deltaG1, p1⟩, -, hok⟩ := except_bind_eq_ok hok
  dsimp only at hok
  rw [h3, except_ok_bind] at hok
  dsimp only at hok
  obtain ⟨⟨deltaG2, p2⟩, -, hok⟩ := except_bind_eq_ok hok
  dsimp only at hok
  rw [h4, except_ok_bind] at hok
  dsimp only at hok
  obtain ⟨⟨buffB, e5⟩, -, hok⟩ := except_bind_eq_ok hok
  dsimp only at hok
  obtain ⟨buffZ0, -, hok⟩ := except_bind_eq_ok hok
  obtain ⟨⟨buffZ, p3⟩, -, hok⟩ := except_bind_eq_ok hok
  dsimp only at hok
  obtain ⟨⟨skipZ, p4⟩, -, hok⟩ := except_bind_eq_ok hok
  dsimp only at hok
  obtain ⟨buffK0, -, hok⟩ := except_bind_eq_ok hok
  obtain ⟨⟨buffK, p5⟩, -, hok⟩ := except_bind_eq_ok hok
  dsimp only at hok
  obtain ⟨⟨buffB2, e6⟩, -, hok⟩ := except_bind_eq_ok hok
  dsimp only at hok
  obtain ⟨r, -, hok⟩ := except_bind_eq_ok hok
  obtain ⟨⟨vkK, q1⟩, -, hok⟩ := except_bind_eq_ok hok
  dsimp only at hok
  obtain ⟨⟨ckk, q2⟩, -, hok⟩ := except_bind_eq_ok hok
  have hpk := Except.ok.inj hok
  rw [← hpk]
  refine ⟨rfl, ?_⟩
  have hsum := filter_length_add_countP G1Affine.IsInfinity A
  have hcnt := countP_isInfinity_eq_count A
  have hint : ((A.length : Int) - ((A.filter (fun p => !p.IsInfinity)).length : Int)) =
      ((A.countP G1Affine.IsInfinity : Nat) : Int) := by omega
  have hlt : A.countP G1Affine.IsInfinity < 2 ^ 64 := by omega
  simp only [filterInfinityG1_eq, hint, toUint64_of_lt _ hlt, count_true_map]
  refine ⟨trivial, hcnt, ?_, ?_, hlt⟩ <;> omega

/-- The sample evals file holds `αG1`, `βG1`, `βG2` and then an `A` with one point
at infinity, which the mask and the count of the extracted key record. -/
theorem extractPK_infinity_count_witness :
    (decodeG1 (evalsLayout false sampleEvals) =
        .ok (sampleEvals.AlphaG1, (evalsLayout false sampleEvals).tail) ∧
      decodeG1 (evalsLayout false sampleEvals).tail =
        .ok (sampleEvals.BetaG1, (evalsLayout false sampleEvals).tail.tail) ∧
      decodeG2 (evalsLayout false sampleEvals).tail.tail =
        .ok (sampleEvals.BetaG2, (evalsLayout false sampleEvals).tail.tail.tail) ∧
      decodeG1Slice (evalsLayout false sampleEvals).tail.tail.tail =
        .ok (sampleEvals.A, (evalsLayout false sampleEvals).drop 6) ∧
      sampleEvals.A.length < 2 ^ 64 ∧
      extractPK sampleInside samplePhase2 (evalsLayout false sampleEvals) = .ok samplePK) ∧
    ((samplePK.G1.A, samplePK.InfinityA, samplePK.NbInfinityA) =
        filterInfinityG1 sampleEvals.A ∧
      samplePK.InfinityA.count true = samplePK.NbInfinityA ∧
      samplePK.NbInfinityA = sampleEvals.A.count G1Affine.zero ∧
      samplePK.G1.A.length ≤ sampleEvals.A.length ∧
      samplePK.NbInfinityA = sampleEvals.A.length - samplePK.G1.A.length ∧
      samplePK.NbInfinityA < 2 ^ 64) :=
  ⟨⟨rfl, rfl, rfl, rfl, by decide, rfl⟩,
    extractPK_infinity_count sampleInside samplePhase2 (evalsLayout false sampleEvals) samplePK
      sampleEvals.AlphaG1 sampleEvals.BetaG1 sampleEvals.BetaG2 sampleEvals.A
      (evalsLayout false sampleEvals).tail (evalsLayout false sampleEvals).tail.tail
      (evalsLayout false sampleEvals).tail.tail.tail ((evalsLayout false sampleEvals).drop 6)
      rfl rfl rfl rfl (by decide) rfl⟩

/-- C7, as the code has it: in an evals file whose points are stored in compressed
form (32 bytes for a G1 point, 64 for a G2 point), with `w < 2^32` wires and
`w` points in each of `A`, `B` and `B2`, the offset `128*(w+1) + 12` that
`extractVK` and `extractPK` seek to is exactly the byte offset at which the
VKK section begins; the reader stands at its length prefix, and the verifying
key `extractVK` builds, which it does build when `CKK` is empty or
`pedersen.Setup` succeeds, has the file's VKK vector as its `K`. -/
theorem vkkSeekOffset_compressed_layout (inside : List Item → Nat → List Item)
    (gammaG2 : G2Affine)
    (Setup : List (List G1Affine) →
      Except String (List pedersen.ProvingKey × pedersen.VerifyingKey))
    (h : Header) (e : Evals) (raw : Bool) (deltaG1 : G1Affine)
    (deltaG2 : G2Affine) (Z PKK : List G1Affine) (contributions : List Item)
    (hw : h.Wires < 2 ^ 32)
    (hA : e.A.length = h.Wires) (hB : e.B.length = h.Wires) (hB2 : e.B2.length = h.Wires) :
    vkkSeekOffset h.Wires = 128 * ((h.Wires : Int) + 1) + 12 ∧
    vkkSeekOffset h.Wires = ((byteSize (evalsBeforeVKK false e) : Nat) : Int) ∧
    seekStart inside (evalsLayout false e) (vkkSeekOffset h.Wires) =
      .ok (encodeG1Slice false e.VKK ++ encodeG1Slice false e.CKK) ∧
    (∀ vk, extractVK inside gammaG2 Setup
        ⟨.ok h, phase2Layout raw deltaG1 deltaG2 Z PKK contributions⟩ (evalsLayout false e) =
          .ok vk → vk.G1.K = e.VKK) ∧
    ((e.CKK = [] ∨ ∃ r, Setup [e.CKK] = .ok r) →
      ∃ vk, extractVK inside gammaG2 Setup
        ⟨.ok h, phase2Layout raw deltaG1 deltaG2 Z PKK contributions⟩ (evalsLayout false e) =
          .ok vk) := by
  have hvk := extractVK_layout inside gammaG2 Setup h e raw deltaG1 deltaG2 Z PKK contributions
    hw hA hB hB2
  have hoff : vkkSeekOffset h.Wires = 128 * ((h.Wires : Int) + 1) + 12 := by
    unfold vkkSeekOffset
    exact toInt64_of_lt _ (by omega) (by omega)
  refine ⟨hoff, ?_, seekStart_evalsLayout_compressed inside e h.Wires hw hA hB hB2, ?_, ?_⟩
  · rw [hoff, byteSize_evalsBeforeVKK, hA, hB, hB2]
    simp only [Bool.false_eq_true, if_false]
    push_cast
    omega
  · intro vk hok
    rw [hvk] at hok
    by_cases hc : e.CKK.length > 0
    · rw [if_pos hc] at hok
      cases hS : Setup [e.CKK] with
      | error err => rw [hS] at hok; cases hok
      | ok r =>
        rw [hS] at hok
        have hvk2 := Except.ok.inj hok
        rw [← hvk2]
    · rw [if_neg hc] at hok
      have hvk2 := Except.ok.inj hok
      rw [← hvk2]
  · intro hor
    rw [hvk]
    by_cases hc : e.CKK.length > 0
    · rw [if_pos hc]
      rcases hor with hnil | ⟨r, hr⟩
      · rw [hnil] at hc
        simp at hc
      · rw [hr]
        exact ⟨_, rfl⟩
    · rw [if_neg hc]
      exact ⟨_, rfl⟩

/-- The sample evals file in compressed form: with two wires the offset is 396,
and the verifying key has the sample VKK. -/
theorem vkkSeekOffset_compressed_layout_witness :
    (sampleHeader.Wires < 2 ^ 32 ∧
      sampleEvals.A.length = sampleHeader.Wires ∧ sampleEvals.B.length = sampleHeader.Wires ∧
      sampleEvals.B2.length = sampleHeader.Wires) ∧
    (vkkSeekOffset sampleHeader.Wires = 128 * ((sampleHeader.Wires : Int) + 1) + 12 ∧
    vkkSeekOffset sampleHeader.Wires =
      ((byteSize (evalsBeforeVKK false sampleEvals) : Nat) : Int) ∧
    seekStart sampleInside (evalsLayout false sampleEvals) (vkkSeekOffset sampleHeader.Wires) =
      .ok (encodeG1Slice false sampleEvals.VKK ++ encodeG1Slice false sampleEvals.CKK) ∧
    (∀ vk, extractVK sampleInside G2Affine.zero sampleSetup samplePhase2 (evalsLayout false sampleEvals) =
          .ok vk → vk.G1.K = sampleEvals.VKK) ∧
    ((sampleEvals.CKK = [] ∨ ∃ r, sampleSetup [sampleEvals.CKK] = .ok r) →
      ∃ vk, extractVK sampleInside G2Affine.zero sampleSetup samplePhase2 (evalsLayout false sampleEvals) =
          .ok vk)) :=
  ⟨by decide,
    vkkSeekOffset_compressed_layout sampleInside G2Affine.zero sampleSetup sampleHeader
      sampleEvals true
      ⟨1, 1⟩ ⟨⟨1, 1⟩, ⟨1, 1⟩⟩ [⟨11, 1⟩, ⟨12, 2⟩, ⟨13, 3⟩, ⟨14, 4⟩] [⟨21, 1⟩] []
      (by decide) (by decide) (by decide) (by decide)⟩

/-- C7 fails as stated: with the points in raw form (64 and 128 bytes) the VKK
section of the sample evals file, which has two wires, begins at byte 780,
while the offset `128*(2+1) + 12` sought is 396, a position inside the first
point of `B`. -/
theorem vkkSeekOffset_raw_layout_mismatch :
    byteSize (evalsBeforeVKK true sampleEvals) = 780 ∧
    vkkSeekOffset sampleEvals.A.length = 396 ∧
    ((byteSize (evalsBeforeVKK true sampleEvals) : Nat) : Int) ≠
      vkkSeekOffset sampleEvals.A.length ∧
    valuesFrom (evalsLayout true sampleEvals) 396 = none ∧
    valuesFrom (evalsLayout true sampleEvals) 780 =
      some (encodeG1Slice true sampleEvals.VKK ++ encodeG1Slice true sampleEvals.CKK) := by
  refine ⟨by decide, by decide, by decide, by decide, by decide⟩


/-- Every proving key `extractPK` builds has no commitment key. -/
theorem extractPK_commitmentKeys_nil (inside : List Item → Nat → List Item)
    (phase2File : Phase2File) (evalsFile : List Item) (pk : groth16bn254.ProvingKey)
    (hok : extractPK inside phase2File evalsFile = .ok pk) : pk.CommitmentKeys = [] := by
  unfold extractPK at hok
  dsimp only at hok
  obtain ⟨header, -, hok⟩ := except_bind_eq_ok hok
  obtain ⟨dom, -, hok⟩ := except_bind_eq_ok hok
  obtain ⟨⟨alphaG1, e1⟩, -, hok⟩ := except_bind_eq_ok hok
  dsimp only at hok
  obtain ⟨⟨betaG1, e2⟩, -, hok⟩ := except_bind_eq_ok hok
  dsimp only at hok
  obtain ⟨⟨deltaG1, p1⟩, -, hok⟩ := except_bind_eq_ok hok
  dsimp only at hok
  obtain ⟨⟨betaG2, e3⟩, -, hok⟩ := except_bind_eq_ok hok
  dsimp only at hok
  obtain ⟨⟨deltaG2, p2⟩, -, hok⟩ := except_bind_eq_ok hok
  dsimp only at hok
  obtain ⟨⟨buffA, e4⟩, -, hok⟩ := except_bind_eq_ok hok
  dsimp only at hok
  obtain ⟨⟨buffB, e5⟩, -, hok⟩ := except_bind_eq_ok hok
  dsimp only at hok
  obtain ⟨buffZ0, -, hok⟩ := except_bind_eq_ok hok
  obtain ⟨⟨buffZ, p3⟩, -, hok⟩ := except_bind_eq_ok hok
  dsimp only at hok
  obtain ⟨⟨skipZ, p4⟩, -, hok⟩ := except_bind_eq_ok hok
  dsimp only at hok
  obtain ⟨buffK0, -, hok⟩ := except_bind_eq_ok hok
  obtain ⟨⟨buffK, p5⟩, -, hok⟩ := except_bind_eq_ok hok
  dsimp only at hok
  obtain ⟨⟨buffB2, e6⟩, -, hok⟩ := except_bind_eq_ok hok
  dsimp only at hok
  obtain ⟨r, -, hok⟩ := except_bind_eq_ok hok
  obtain ⟨⟨vkK, q1⟩, -, hok⟩ := except_bind_eq_ok hok
  dsimp only at hok
  obtain ⟨⟨ckk, q2⟩, -, hok⟩ := except_bind_eq_ok hok
  have hpk := Except.ok.inj hok
  rw [← hpk]

/-- What a successful `extractVK` has read: the header, the two vectors decoded at
the offset sought, of which the first is the `K` of the key, and as many
commitment keys as the second is non-empty. -/
theorem extractVK_ok_inv (inside : List Item → Nat → List Item) (gammaG2 : G2Affine)
    (Setup : List (List G1Affine) →
      Except String (List pedersen.ProvingKey × pedersen.VerifyingKey))
    (phase2File : Phase2File) (evalsFile : List Item) (vk : groth16bn254.VerifyingKey)
    (hok : extractVK inside gammaG2 Setup phase2File evalsFile = .ok vk) :
    ∃ (h : Header) (r : List Item) (vkK : List G1Affine) (r1 : List Item)
      (ckk : List G1Affine) (r2 : List Item),
      phase2File.header = .ok h ∧
      seekStart inside evalsFile (vkkSeekOffset h.Wires) = .ok r ∧
      decodeG1Slice r = .ok (vkK, r1) ∧ decodeG1Slice r1 = .ok (ckk, r2) ∧
      vk.G1.K = vkK ∧ vk.CommitmentKeys.length = (if ckk = [] then 0 else 1) := by
  unfold extractVK at hok
  dsimp only at hok
  obtain ⟨h, hh, hok⟩ := except_bind_eq_ok hok
  obtain ⟨⟨alphaG1, e1⟩, -, hok⟩ := except_bind_eq_ok hok
  dsimp only at hok
  obtain ⟨⟨betaG1, e2⟩, -, hok⟩ := except_bind_eq_ok hok
  dsimp only at hok
  obtain ⟨⟨betaG2, e3⟩, -, hok⟩ := except_bind_eq_ok hok
  dsimp only at hok
  obtain ⟨⟨deltaG1, p1⟩, -, hok⟩ := except_bind_eq_ok hok
  dsimp only at hok
  obtain ⟨⟨deltaG2, p2⟩, -, hok⟩ := except_bind_eq_ok hok
  dsimp only at hok
  obtain ⟨r, hr, hok⟩ := except_bind_eq_ok hok
  obtain ⟨⟨vkK, r1⟩, hv, hok⟩ := except_bind_eq_ok hok
  dsimp only at hok
  obtain ⟨⟨ckk, r2⟩, hc, hok⟩ := except_bind_eq_ok hok
  dsimp only at hok
  refine ⟨h, r, vkK, r1, ckk, r2, hh, hr, hv, hc, ?_⟩
  cases ckk with
  | nil =>
    rw [if_neg (by simp)] at hok
    have hvk := Except.ok.inj hok
    rw [← hvk]
    exact ⟨rfl, rfl⟩
  | cons c cs =>
    rw [if_pos (by simp)] at hok
    obtain ⟨res, -, hok⟩ := except_bind_eq_ok hok
    have hvk := Except.ok.inj hok
    rw [← hvk]
    refine ⟨rfl, ?_⟩
    simp

/-- C10, as the code has it: for every Phase-2 file and evals file on which
`ExtractKeys` succeeds, the proving key carries no Pedersen commitment key,
whatever the file holds, and the verifying key carries none when the vector
`extractVK` decodes as `CKK`, the second vector at the offset it seeks to, is
empty and one when it is not empty; the two counts agree exactly when that
vector is empty.  In an evals file in the compressed layout with as many
points in `A`, `B` and `B2` as the header has wires, that vector is the `CKK`
of the file. -/
theorem extractKeys_commitment_keys (inside : List Item → Nat → List Item)
    (gammaG2 : G2Affine)
    (Setup : List (List G1Affine) →
      Except String (List pedersen.ProvingKey × pedersen.VerifyingKey))
    (phase2File : Phase2File) (evalsFile : List Item)
    (pk : groth16bn254.ProvingKey) (vk : groth16bn254.VerifyingKey)
    (hok : ExtractKeys inside gammaG2 Setup phase2File evalsFile = .ok (pk, vk)) :
    pk.CommitmentKeys.length = 0 ∧
    (∃ (h : Header) (r : List Item) (vkK : List G1Affine) (r1 : List Item)
      (ckk : List G1Affine) (r2 : List Item),
      phase2File.header = .ok h ∧
      seekStart inside evalsFile (vkkSeekOffset h.Wires) = .ok r ∧
      decodeG1Slice r = .ok (vkK, r1) ∧ decodeG1Slice r1 = .ok (ckk, r2) ∧
      vk.CommitmentKeys.length = (if ckk = [] then 0 else 1) ∧
      (pk.CommitmentKeys.length = vk.CommitmentKeys.length ↔ ckk = [])) ∧
    (∀ (h : Header) (e : Evals), phase2File.header = .ok h → evalsFile = evalsLayout false e →
      h.Wires < 2 ^ 32 → e.A.length = h.Wires → e.B.length = h.Wires →
      e.B2.length = h.Wires →
      vk.CommitmentKeys.length = (if e.CKK = [] then 0 else 1) ∧
      (pk.CommitmentKeys.length = vk.CommitmentKeys.length ↔ e.CKK = [])) := by
  unfold ExtractKeys at hok
  obtain ⟨pk0, hpk, hok⟩ := except_bind_eq_ok hok
  obtain ⟨vk0, hvk, hok⟩ := except_bind_eq_ok hok
  have hpair := Except.ok.inj hok
  have hp : pk0 = pk := congrArg Prod.fst hpair
  have hv : vk0 = vk := congrArg Prod.snd hpair
  subst hp
  subst hv
  have hnil := extractPK_commitmentKeys_nil inside phase2File evalsFile pk0 hpk
  obtain ⟨h, r, vkK, r1, ckk, r2, hh, hr, hdv, hdc, -, hcount⟩ :=
    extractVK_ok_inv inside gammaG2 Setup phase2File evalsFile vk0 hvk
  have hiff : ∀ l : List G1Affine, vk0.CommitmentKeys.length = (if l = [] then 0 else 1) →
      (pk0.CommitmentKeys.length = vk0.CommitmentKeys.length ↔ l = []) := by
    intro l hl
    rw [hnil, hl]
    by_cases hl0 : l = []
    · simp [hl0]
    · simp [hl0]
  refine ⟨by rw [hnil]; rfl, ⟨h, r, vkK, r1, ckk, r2, hh, hr, hdv, hdc, hcount, hiff ckk hcount⟩,
    ?_⟩
  intro h2 e hh2 he hw hA hB hB2
  have hhe : h = h2 := Except.ok.inj (hh.symm.trans hh2)
  subst hhe
  subst he
  have hs := seekStart_evalsLayout_compressed inside e h.Wires hw hA hB hB2
  have hr2 : r = encodeG1Slice false e.VKK ++ encodeG1Slice false e.CKK :=
    Except.ok.inj (hr.symm.trans hs)
  subst hr2
  rw [decodeG1Slice_encode] at hdv
  have hr1 : encodeG1Slice false e.CKK = r1 := congrArg Prod.snd (Except.ok.inj hdv)
  subst hr1
  rw [decodeG1Slice_encode_end] at hdc
  have hckk : e.CKK = ckk := congrArg Prod.fst (Except.ok.inj hdc)
  subst hckk
  exact ⟨hcount, hiff e.CKK hcount⟩

/-- Both keys are extracted from the sample files, whose `CKK` has one point: the
proving key has no commitment key and the verifying key has one. -/
theorem extractKeys_commitment_keys_witness :
    ExtractKeys sampleInside G2Affine.zero sampleSetup samplePhase2
        (evalsLayout false sampleEvals) = .ok (samplePK, sampleVK) ∧
    (samplePK.CommitmentKeys.length = 0 ∧
    (∃ (h : Header) (r : List Item) (vkK : List G1Affine) (r1 : List Item)
      (ckk : List G1Affine) (r2 : List Item),
      samplePhase2.header = .ok h ∧
      seekStart sampleInside (evalsLayout false sampleEvals) (vkkSeekOffset h.Wires) = .ok r ∧
      decodeG1Slice r = .ok (vkK, r1) ∧ decodeG1Slice r1 = .ok (ckk, r2) ∧
      sampleVK.CommitmentKeys.length = (if ckk = [] then 0 else 1) ∧
      (samplePK.CommitmentKeys.length = sampleVK.CommitmentKeys.length ↔ ckk = [])) ∧
    (∀ (h : Header) (e : Evals), samplePhase2.header = .ok h →
      evalsLayout false sampleEvals = evalsLayout false e →
      h.Wires < 2 ^ 32 → e.A.length = h.Wires → e.B.length = h.Wires →
      e.B2.length = h.Wires →
      sampleVK.CommitmentKeys.length = (if e.CKK = [] then 0 else 1) ∧
      (samplePK.CommitmentKeys.length = sampleVK.CommitmentKeys.length ↔ e.CKK = []))) :=
  ⟨rfl,
    extractKeys_commitment_keys sampleInside G2Affine.zero sampleSetup samplePhase2
      (evalsLayout false sampleEvals) samplePK sampleVK rfl⟩

/-- C10 fails as stated: on the sample files, whose `CKK` is not empty, both
extractions succeed, and the proving key carries no commitment key while the
verifying key carries one. -/
theorem extractKeys_commitment_keys_differ :
    sampleEvals.CKK ≠ [] ∧
    (extractPK sampleInside samplePhase2 (evalsLayout false sampleEvals)).map
      (fun pk => pk.CommitmentKeys.length) = .ok 0 ∧
    (extractVK sampleInside G2Affine.zero sampleSetup samplePhase2
        (evalsLayout false sampleEvals)).map
      (fun vk => vk.CommitmentKeys.length) = .ok 1 :=
  ⟨by decide, rfl, rfl⟩

/-- On the sample evals file with the points in raw form, the offset sought is
inside a value.  When the bytes there read as two empty vectors, both
extractions succeed, and the verifying key has an empty `K` and no commitment
key although the `VKK` and the `CKK` of the file are not empty. -/
theorem extractKeys_raw_evals_reads_other_bytes :
    sampleEvals.VKK ≠ [] ∧ sampleEvals.CKK ≠ [] ∧
    (extractPK sampleInsideEmpty samplePhase2 (evalsLayout true sampleEvals)).map
      (fun pk => pk.CommitmentKeys.length) = .ok 0 ∧
    (extractVK sampleInsideEmpty G2Affine.zero sampleSetup samplePhase2
        (evalsLayout true sampleEvals)).map
      (fun vk => (vk.G1.K, vk.CommitmentKeys.length)) = .ok ([], 0) :=
  ⟨by decide, by decide, rfl, rfl⟩

/-! ## Phase-1 commands: the claims -/

theorem toByte_of_lt (x : Int) (h0 : 0 ≤ x) (h : x < 256) : toByte x = x.toNat := by
  unfold toByte
  rw [Int.emod_eq_of_lt h0 h]

/-- C5, as the code has it: for every integer power argument `p > 26`, `p1n` fails,
with an error and without a call of `phase1.Initialize`, whatever the other
arguments; for `0 ≤ p ≤ 26`, zero included, the guard does not reject: `p1n`
with two arguments calls `phase1.Initialize` with power `p` and returns its
result. -/
theorem p1n_power_guard (pkg : Packages) (args : List String) (power : Int)
    (hp : pkg.Atoi (Args.Get args 0) = .ok power) :
    (26 < power → (p1n pkg args).err ≠ none ∧ (p1n pkg args).calls = []) ∧
    (0 ≤ power → power ≤ 26 → args.length = 2 →
      toByte power = power.toNat ∧
      p1n pkg args = ⟨pkg.Initialize power.toNat (Args.Get args 1),
        [Call.Initialize power.toNat (Args.Get args 1)]⟩) := by
  constructor
  · intro hgt
    unfold p1n
    by_cases hlen : args.length ≠ 2
    · simp [hlen]
    · simp only [hlen, if_false, hp]
      rw [if_pos (by omega)]
      simp
  · intro h0 h26 hlen
    have hb := toByte_of_lt power h0 (by omega)
    refine ⟨hb, ?_⟩
    unfold p1n
    simp only [hlen, ne_eq, not_true_eq_false, if_false, hp]
    rw [if_neg (by omega), hb]

/-- The arguments `27 out` with the sample packages: the power parses to 27 and
the command fails without a call. -/
theorem p1n_power_guard_witness :
    samplePackages.Atoi (Args.Get ["27", "out"] 0) = .ok 27 ∧
    ((26 < (27 : Int) → (p1n samplePackages ["27", "out"]).err ≠ none ∧
        (p1n samplePackages ["27", "out"]).calls = []) ∧
      ((0 : Int) ≤ 27 → (27 : Int) ≤ 26 → ["27", "out"].length = 2 →
        toByte 27 = (27 : Int).toNat ∧
        p1n samplePackages ["27", "out"] =
          ⟨samplePackages.Initialize (27 : Int).toNat (Args.Get ["27", "out"] 1),
            [Call.Initialize (27 : Int).toNat (Args.Get ["27", "out"] 1)]⟩)) :=
  ⟨rfl, p1n_power_guard samplePackages ["27", "out"] 27 rfl⟩

/-- C5 fails as stated: with the power argument `0`, which is below 1, `p1n` does
not fail; it calls `phase1.Initialize` with power 0 and returns its result. -/
theorem p1n_power_zero_calls_initialize :
    p1n samplePackages ["0", "out"] = ⟨none, [Call.Initialize 0 "out"]⟩ := by
  decide

/-- C6: for every pair of integers `inPower`, `outPower` given to `p1t` with
exactly four arguments: when `outPower > inPower` the command returns an error
and does not call `phase1.Transform`, in particular for `outPower =
inPower + 1`; when `outPower ≤ inPower`, in particular for `outPower =
inPower`, the guard does not reject and the command returns exactly the result
of its one call of `phase1.Transform`. -/
theorem p1t_upscale_guard (pkg : Packages) (inputPath outputPath inPowStr outPowStr : String)
    (inPower outPower : Int)
    (hin : pkg.Atoi inPowStr = .ok inPower) (hout : pkg.Atoi outPowStr = .ok outPower) :
    (outPower > inPower →
      p1t pkg [inputPath, outputPath, inPowStr, outPowStr] =
        ⟨some "cannot transform to a higher power", []⟩) ∧
    (outPower = inPower + 1 →
      (p1t pkg [inputPath, outputPath, inPowStr, outPowStr]).err ≠ none ∧
      (p1t pkg [inputPath, outputPath, inPowStr, outPowStr]).calls = []) ∧
    (outPower ≤ inPower →
      (p1t pkg [inputPath, outputPath, inPowStr, outPowStr]).calls =
        [Call.Transform inputPath outputPath (toByte inPower) (toByte outPower)] ∧
      (p1t pkg [inputPath, outputPath, inPowStr, outPowStr]).err =
        pkg.Transform inputPath outputPath (toByte inPower) (toByte outPower)) := by
  have hgt : outPower > inPower →
      p1t pkg [inputPath, outputPath, inPowStr, outPowStr] =
        ⟨some "cannot transform to a higher power", []⟩ := by
    intro hlt
    simp only [p1t, Args.Get, List.length_cons, List.length_nil, List.getD_cons_zero,
      List.getD_cons_succ, hin, hout]
    simp [show inPower < outPower from hlt]
  refine ⟨hgt, ?_, ?_⟩
  · intro heq
    rw [hgt (by omega)]
    simp
  · intro hle
    simp only [p1t, Args.Get, List.length_cons, List.length_nil, List.getD_cons_zero,
      List.getD_cons_succ, hin, hout]
    simp [show ¬ inPower < outPower from by omega]

/-- The arguments `in out 4 2` with the sample packages: both powers parse, and
the command makes its one call of `phase1.Transform`. -/
theorem p1t_upscale_guard_witness :
    samplePackages.Atoi "4" = .ok 4 ∧ samplePackages.Atoi "2" = .ok 2 ∧
    (((2 : Int) > 4 →
      p1t samplePackages ["in", "out", "4", "2"] =
        ⟨some "cannot transform to a higher power", []⟩) ∧
    ((2 : Int) = 4 + 1 →
      (p1t samplePackages ["in", "out", "4", "2"]).err ≠ none ∧
      (p1t samplePackages ["in", "out", "4", "2"]).calls = []) ∧
    ((2 : Int) ≤ 4 →
      (p1t samplePackages ["in", "out", "4", "2"]).calls =
        [Call.Transform "in" "out" (toByte 4) (toByte 2)] ∧
      (p1t samplePackages ["in", "out", "4", "2"]).err =
        samplePackages.Transform "in" "out" (toByte 4) (toByte 2))) :=
  ⟨rfl, rfl, p1t_upscale_guard samplePackages "in" "out" "4" "2" 4 2 rfl rfl⟩

/-- C9 at the failing input: the arguments `in out 256 255` pass the guard of
`p1t`, since `255 ≤ 256`, and the command calls `phase1.Transform` with input
power `byte(256) = 0` and output power `byte(255) = 255`, a transform to a
higher power. -/
theorem p1t_byte_conversion_requests_higher_power :
    samplePackages.Atoi "256" = .ok 256 ∧ samplePackages.Atoi "255" = .ok 255 ∧
    (255 : Int) ≤ 256 ∧
    p1t samplePackages ["in", "out", "256", "255"] =
      ⟨none, [Call.Transform "in" "out" 0 255]⟩ ∧
    ¬ (toByte 255 ≤ toByte 256) :=
  ⟨rfl, rfl, by decide, by decide, by decide⟩

end SemaphoreMtbSetup
